import Mathlib

/-!
Verification of the django_permission_engine core: the permission registry
(`registry.py`), the persisted `Permission` model (`models.py`), the runtime
resolver (`permissions.py`) and the grant helper (`helpers.py`), shallowly
embedded as executable Lean definitions.  The persisted store is modelled as
a list of `Permission` rows; Django's `@transaction.atomic` is modelled by
returning the original store when an exception is raised inside `sync`.
-/

namespace DPE

/-- Python `str.title()` restricted to ASCII: each maximal run of letters is
capitalised on its first letter, remaining letters lowercased.  Used by the
label-generation helpers in `registry.py`. -/
def pyTitleAux : List Char → Bool → List Char
  | [], _ => []
  | c :: cs, prevCased =>
    if c.isAlpha then
      (if prevCased then c.toLower else c.toUpper) :: pyTitleAux cs true
    else
      c :: pyTitleAux cs false

/-- Python `s.title()`. -/
def pyTitle (s : String) : String := ⟨pyTitleAux s.toList false⟩

/-- Registry-side permission definition (`PermissionDefinition` in
`registry.py`): plain record of key, module, capability, label, description
and type (`"crud"` or `"action"`). -/
structure PermissionDefinition where
  key : String
  module : String
  capability : String
  label : String
  description : String := ""
  type : String := "action"
  deriving DecidableEq, Repr

/-- Registry-side module definition (`ModuleDefinition` in `registry.py`). -/
structure ModuleDefinition where
  name : String
  crud : List String
  actions : List String
  label : String
  description : String
  deriving DecidableEq, Repr

/-- `ModuleDefinition.__init__`: `label = label or name.title()` and
`description = description or ""` (Python truthiness: `None` and `""` are
falsy). -/
def mkModuleDefinition (name : String) (crud actions : List String)
    (label description : Option String) : ModuleDefinition :=
  { name := name
    crud := crud
    actions := actions
    label := match label with
      | some l => if l = "" then pyTitle name else l
      | none => pyTitle name
    description := match description with
      | some d => d
      | none => "" }

/-- The in-memory registry (`PermissionRegistry` in `registry.py`).  The two
Python dicts `_modules` and `_permissions` are modelled as insertion-ordered
association lists. -/
structure Registry where
  validate_on_startup : Bool := true
  strict_mode : Bool := true
  auto_sync : Bool := false
  orphan_action : String := "warn"
  modules : List (String × ModuleDefinition) := []
  permissions : List (String × PermissionDefinition) := []
  deriving DecidableEq, Repr

/-- Python dict assignment `d[k] = v`: replace the value in place if the key
is present, otherwise append the pair at the end. -/
def dictInsert {α : Type} : List (String × α) → String → α → List (String × α)
  | [], k, v => [(k, v)]
  | (k', v') :: rest, k, v =>
    if k' = k then (k', v) :: rest else (k', v') :: dictInsert rest k v

/-- `PermissionRegistry.STANDARD_CRUD`. -/
def STANDARD_CRUD : List String := ["view", "create", "update", "delete"]

/-- `PermissionRegistry._generate_crud_label`. -/
def generate_crud_label (capability : String) (module : String) : String :=
  if capability = "view" then "View " ++ pyTitle module
  else if capability = "create" then "Create " ++ pyTitle module
  else if capability = "update" then "Update " ++ pyTitle module
  else if capability = "delete" then "Delete " ++ pyTitle module
  else capability

/-- Python `s.replace("_", " ")` (single-character pattern, so a
character-wise map). -/
def replaceUnderscores (s : String) : String :=
  ⟨s.toList.map (fun c => if c = '_' then ' ' else c)⟩

/-- `PermissionRegistry._generate_action_label`:
`action.replace("_", " ").title() + " " + module.title()`. -/
def generate_action_label (act : String) (module : String) : String :=
  pyTitle (replaceUnderscores act) ++ " " ++ pyTitle module

/-- Errors raised by `register_module`: `ValueError` for a duplicate module
name and `ValidationError` for a crud entry outside `STANDARD_CRUD`.  The
spec's taxonomy calls these `DuplicateModuleError` and
`InvalidCapabilityError`. -/
inductive RegError where
  | duplicateModule (name : String)
  | invalidCapability (cap : String)
  deriving DecidableEq, Repr

/-- The crud half of `PermissionRegistry._generate_module_permissions`: for
each crud capability in order, raise `ValidationError` if it is not a
standard one, otherwise insert the generated `PermissionDefinition` into the
permission dict.  The returned registry is the state at the moment of
return/raise (Python mutates `self` in place, so a raise leaves the inserts
made so far visible). -/
def genCrudPerms (name : String) : List String → Registry → Registry × Option RegError
  | [], r => (r, none)
  | c :: rest, r =>
    if c ∈ STANDARD_CRUD then
      let key := name ++ "." ++ c
      let pd : PermissionDefinition :=
        { key := key, module := name, capability := c
          label := generate_crud_label c name, description := "", type := "crud" }
      genCrudPerms name rest { r with permissions := dictInsert r.permissions key pd }
    else
      (r, some (.invalidCapability c))

/-- The action half of `PermissionRegistry._generate_module_permissions`
(never raises). -/
def genActionPerms (name : String) : List String → Registry → Registry
  | [], r => r
  | a :: rest, r =>
    let key := name ++ "." ++ a
    let pd : PermissionDefinition :=
      { key := key, module := name, capability := a
        label := generate_action_label a name, description := "", type := "action" }
    genActionPerms name rest { r with permissions := dictInsert r.permissions key pd }

/-- `PermissionRegistry._generate_module_permissions`. -/
def generate_module_permissions (md : ModuleDefinition) (r : Registry) :
    Registry × Option RegError :=
  match genCrudPerms md.name md.crud r with
  | (r1, none) => (genActionPerms md.name md.actions r1, none)
  | (r1, some e) => (r1, some e)

/-- `PermissionRegistry.register_module`.  Returns the registry state after
the call together with the raised error, if any (a duplicate name raises
before any mutation; an invalid crud capability raises after the module and
the preceding capabilities have been inserted). -/
def register_module (r : Registry) (module_name : String)
    (crud actions : List String) (label description : Option String) :
    Registry × Option RegError :=
  if (r.modules.lookup module_name).isSome then
    (r, some (.duplicateModule module_name))
  else
    let md := mkModuleDefinition module_name crud actions label description
    generate_module_permissions md
      { r with modules := dictInsert r.modules module_name md }

/-- `PermissionRegistry.get_module_permissions`. -/
def get_module_permissions (r : Registry) (module : String) :
    List PermissionDefinition :=
  (r.permissions.filter (fun kp => kp.2.module = module)).map (fun kp => kp.2)

/-- One iteration of the `validate` loop body: the two conditional
`errors.append` calls for a single `(key, perm_def)` entry. -/
def validateEntryErrors (kp : String × PermissionDefinition) : List String :=
  (if ¬ kp.1.toList.contains '.' then
    ["Invalid permission key format: " ++ kp.1]
  else []) ++
  (if kp.1 ≠ kp.2.module ++ "." ++ kp.2.capability then
    ["Permission key '" ++ kp.1 ++ "' does not match module.capability '" ++
      kp.2.module ++ "." ++ kp.2.capability ++ "'"]
  else [])

/-- `PermissionRegistry.validate`: per-entry key checks followed by the
defensive duplicate-key check (`len(dict) != len(set(keys))`).  Pure. -/
def validate (r : Registry) : List String :=
  let errs := r.permissions.foldl (fun errs kp => errs ++ validateEntryErrors kp) []
  if r.permissions.length ≠ ((r.permissions.map (fun kp => kp.1)).dedup).length then
    errs ++ ["Duplicate permission keys found"]
  else errs

/-- Persisted `Permission` row (`models.py`).  `pk` is the database primary
key (`none` before the first save). -/
structure Permission where
  pk : Option Nat := none
  key : String
  module : String := ""
  capability : String := ""
  label : String := ""
  description : String := ""
  is_active : Bool := true
  is_deprecated : Bool := false
  deriving DecidableEq, Repr

/-- Python `key.split(".", 1)`: the text before the first dot and the
remainder after it. -/
def splitKey1 (key : String) : String × String :=
  let l := key.toList
  (⟨l.takeWhile (fun c => c != '.')⟩, ⟨(l.dropWhile (fun c => c != '.')).tail⟩)

/-- Python `s.split(".")`, written as structural recursion over the
character list. -/
def splitOnDotAux : List Char → List Char → List String
  | [], acc => [⟨acc.reverse⟩]
  | c :: cs, acc =>
    if c = '.' then ⟨acc.reverse⟩ :: splitOnDotAux cs []
    else splitOnDotAux cs (c :: acc)

/-- Python `key.split(".")`. -/
def splitOnDot (s : String) : List String := splitOnDotAux s.toList []

/-- The key-format regex `^[a-z0-9_]+(\.[a-z0-9_]+)+$` from
`Permission.clean`: at least two dot-separated segments, each a nonempty run
of lowercase letters, digits or underscores. -/
def keyFormatValid (key : String) : Bool :=
  let parts := splitOnDot key
  parts.length ≥ 2 &&
    parts.all (fun part =>
      part ≠ "" && part.toList.all (fun c => c.isLower || c.isDigit || c = '_'))

/-- `Permission.clean` plus the uniqueness check Django's `full_clean` runs
against the store: returns the `ValidationError` message, or `none` when the
row validates. -/
def permClean (db : List Permission) (p : Permission) : Option String :=
  if p.key = "" then some "Permission key is required"
  else if ¬ p.key.toList.contains '.' then
    some "Permission key must be in format: module.capability"
  else
    let mc := splitKey1 p.key
    if p.module ≠ "" ∧ p.module ≠ mc.1 then
      some ("Module '" ++ p.module ++ "' does not match key prefix '" ++ mc.1 ++ "'")
    else if p.capability ≠ "" ∧ p.capability ≠ mc.2 then
      some ("Capability '" ++ p.capability ++ "' does not match key suffix '" ++ mc.2 ++ "'")
    else if ¬ keyFormatValid p.key then
      some "Permission key must contain only lowercase letters, numbers, underscores, and dots"
    else if db.any (fun q => decide (q.key = p.key ∧ q.pk ≠ p.pk)) then
      some "Permission with this Key already exists."
    else none

/-- Next auto-assigned primary key: one more than the largest pk in the
store. -/
def freshPk (db : List Permission) : Nat :=
  (db.foldl (fun m q => max m (q.pk.getD 0)) 0) + 1

/-- `Permission.save`: reject a key change on an existing row, auto-populate
`module`/`capability` from the key, run `full_clean`, then write the row
(replace by pk, or append with a fresh pk).  An error models the raised
`ValidationError`; the caller's store is untouched in that case. -/
def permSave (db : List Permission) (p : Permission) : Except String (List Permission) :=
  let immutable_violation : Bool :=
    match p.pk with
    | some i =>
      match db.find? (fun q => decide (q.pk = some i)) with
      | some original => decide (p.key ≠ original.key)
      | none => false
    | none => false
  if immutable_violation then
    .error "Permission keys are immutable and cannot be changed"
  else
    let p1 :=
      if p.key ≠ "" ∧ p.key.toList.contains '.' then
        let mc := splitKey1 p.key
        { p with
          module := if p.module = "" then mc.1 else p.module
          capability := if p.capability = "" then mc.2 else p.capability }
      else p
    match permClean db p1 with
    | some e => .error e
    | none =>
      match p1.pk with
      | some i => .ok (db.map (fun q => if q.pk = some i then p1 else q))
      | none => .ok (db ++ [{ p1 with pk := some (freshPk db) }])

/-! ### Synchronisation (`PermissionRegistry.sync`) -/

/-- A sync plan (`dry_run=True` return value): definitions to create, to
update, and the orphaned persisted rows. -/
structure SyncPlan where
  create : List PermissionDefinition
  update : List PermissionDefinition
  orphaned : List Permission
  deriving DecidableEq, Repr

/-- A sync result (`dry_run=False` return value): created, updated and
orphaned permission keys. -/
structure SyncResult where
  created : List String
  updated : List String
  orphaned : List String
  deriving DecidableEq, Repr

/-- `PermissionRegistry._metadata_changed`. -/
def metadata_changed (existing : Permission) (definition : PermissionDefinition) : Bool :=
  existing.label ≠ definition.label ∨
  existing.description ≠ definition.description ∨
  existing.is_active = false ∨
  existing.is_deprecated ≠ decide (definition.type = "deprecated")

/-- The dict comprehension `{p.key: p for p in Permission.objects.all()}`. -/
def dbByKey (db : List Permission) : List (String × Permission) :=
  db.foldl (fun m p => dictInsert m p.key p) []

/-- `PermissionRegistry._plan_sync`. -/
def plan_sync (definitions : List (String × PermissionDefinition))
    (dbp : List (String × Permission)) : SyncPlan :=
  { create := definitions.filterMap (fun kd =>
      if (dbp.lookup kd.1).isNone then some kd.2 else none)
    update := definitions.filterMap (fun kd =>
      match dbp.lookup kd.1 with
      | some existing => if metadata_changed existing kd.2 then some kd.2 else none
      | none => none)
    orphaned := dbp.filterMap (fun kp =>
      if (definitions.lookup kp.1).isNone then some kp.2 else none) }

/-- Errors that abort `_execute_sync`: a `ValidationError` raised by
`Permission.save` while creating a row, or the `ValidationError`
"Orphaned permission found" raised under the `error` orphan policy (the
spec's `OrphanPolicyError`). -/
inductive SyncError where
  | saveError (msg : String)
  | orphanedError (key : String)
  deriving DecidableEq, Repr

/-- The create loop of `_execute_sync`: `Permission.objects.create(...)`
(which runs `Permission.save`) for each planned definition, collecting the
created keys. -/
def createAll (db : List Permission) : List PermissionDefinition →
    Except SyncError (List Permission × List String)
  | [] => .ok (db, [])
  | d :: rest =>
    match permSave db
      { pk := none, key := d.key, module := d.module, capability := d.capability
        label := d.label, description := d.description
        is_active := true, is_deprecated := false } with
    | .error msg => .error (.saveError msg)
    | .ok db' =>
      match createAll db' rest with
      | .error e => .error e
      | .ok (db'', keys) => .ok (db'', d.key :: keys)

/-- One queryset update
`Permission.objects.filter(key=definition.key).update(label=..., description=..., is_active=True)`
(bypasses `save`, so `is_deprecated` is never written). -/
def updOne (db : List Permission) (d : PermissionDefinition) : List Permission :=
  db.map (fun q =>
    if q.key = d.key then
      { q with label := d.label, description := d.description, is_active := true }
    else q)

/-- The update loop of `_execute_sync`. -/
def updateAll (db : List Permission) : List PermissionDefinition →
    List Permission × List String
  | [] => (db, [])
  | d :: rest =>
    let step := updateAll (updOne db d) rest
    (step.1, d.key :: step.2)

/-- `permission.delete()`: remove the row with the orphan's pk. -/
def deleteByPk (db : List Permission) (p : Permission) : List Permission :=
  db.filter (fun q => decide (q.pk ≠ p.pk))

/-- The orphan loop of `_execute_sync`: delete and report under `"delete"`,
raise under `"error"`, report only under `"warn"`, and silently skip under
any other policy string. -/
def orphanPhase (action : String) (db : List Permission) :
    List Permission → Except SyncError (List Permission × List String)
  | [] => .ok (db, [])
  | p :: rest =>
    if action = "delete" then
      match orphanPhase action (deleteByPk db p) rest with
      | .error e => .error e
      | .ok (db', keys) => .ok (db', p.key :: keys)
    else if action = "error" then
      .error (.orphanedError p.key)
    else if action = "warn" then
      match orphanPhase action db rest with
      | .error e => .error e
      | .ok (db', keys) => .ok (db', p.key :: keys)
    else
      orphanPhase action db rest

/-- `PermissionRegistry._execute_sync`. -/
def execute_sync (action : String) (db : List Permission) (plan : SyncPlan) :
    Except SyncError (List Permission × SyncResult) :=
  match createAll db plan.create with
  | .error e => .error e
  | .ok (db1, created) =>
    match updateAll db1 plan.update with
    | (db2, updated) =>
      match orphanPhase action db2 plan.orphaned with
      | .error e => .error e
      | .ok (db3, orphaned) =>
        .ok (db3, { created := created, updated := updated, orphaned := orphaned })

/-- `sync(dry_run=True)`: compute the plan without touching the store. -/
def syncPlanOf (r : Registry) (db : List Permission) : SyncPlan :=
  plan_sync r.permissions (dbByKey db)

/-- `sync(dry_run=False)` body: plan then execute. -/
def syncRun (r : Registry) (db : List Permission) :
    Except SyncError (List Permission × SyncResult) :=
  execute_sync r.orphan_action db (syncPlanOf r db)

/-- `sync(dry_run=False)` as observed through `@transaction.atomic`: on an
exception the transaction rolls back and the store is exactly the original
one. -/
def syncAtomic (r : Registry) (db : List Permission) :
    List Permission × Except SyncError SyncResult :=
  match syncRun r db with
  | .ok (db', res) => (db', .ok res)
  | .error e => (db, .error e)

/-! ### Resolver (`permissions.py`) -/

/-- `PermissionResolver.CRUD_ACTION_MAP`. -/
def CRUD_ACTION_MAP : List (String × String) :=
  [("list", "view"), ("retrieve", "view"), ("create", "create"),
   ("update", "update"), ("partial_update", "update"), ("destroy", "delete")]

/-- `PermissionResolver.normalize_action`: map standard DRF actions to
capabilities, pass custom actions through unchanged.  The `http_method`
argument is accepted but unused, as in the source. -/
def normalize_action (act : String) (_http_method : String) : String :=
  match CRUD_ACTION_MAP.lookup act with
  | some c => c
  | none => act

/-- `PermissionResolver.construct_permission_key`. -/
def construct_permission_key (module capability : String) : String :=
  module ++ "." ++ capability

/-- `PermissionResolver.is_valid_permission_key`. -/
def is_valid_permission_key (key : String) : Bool :=
  if key = "" || ¬ key.toList.contains '.' then false
  else
    let parts := splitOnDot key
    if parts.length < 2 then false
    else parts.all (fun part =>
      part ≠ "" && part.toList.all (fun c => c.isLower || c.isDigit || c = '_'))

/-- `PermissionResolver.check_permission`: reject malformed keys, then test
membership in the principal's cached grant set.  `user_permissions` stands
for `get_user_permissions(user)`, the set of keys of the principal's active
granted permissions. -/
def check_permission (permission_key : String) (user_permissions : List String) : Bool :=
  if ¬ is_valid_permission_key permission_key then false
  else user_permissions.contains permission_key

/-- `PermissionResolver.resolve`.  The viewset is represented by its
extracted module (`get_module`): `none` when the viewset declares no module,
and Python's `if not module` also treats the empty string as missing. -/
def resolve (is_authenticated : Bool) (module : Option String)
    (act http_method : String) (user_permissions : List String) : Bool :=
  if ¬ is_authenticated then false
  else
    match module with
    | none => true
    | some m =>
      if m = "" then true
      else
        check_permission
          (construct_permission_key m (normalize_action act http_method))
          user_permissions

/-! ### Grant helper (`helpers.py`) -/

/-- A persisted `UserPermission` grant row: the principal's id and the
granted `Permission` row (the foreign key target). -/
structure UserPermissionRow where
  user : Nat
  perm : Permission
  deriving DecidableEq, Repr

/-- `UPRHelper.add_permission`: delete every existing grant of the
principal, then bulk-create one grant per persisted `Permission` whose key
is among the requested keys, and return `True`. -/
def add_permission (user : Nat) (ups : List UserPermissionRow)
    (perms : List Permission) (permission_keys : List String) :
    List UserPermissionRow × Bool :=
  let remaining := ups.filter (fun g => g.user ≠ user)
  let matched := perms.filter (fun p => permission_keys.contains p.key)
  (remaining ++ matched.map (fun p => { user := user, perm := p }), true)

/-! ### Association-list lemmas -/

theorem lookup_cons {α : Type} (k k' : String) (v : α) (l : List (String × α)) :
    ((k', v) :: l).lookup k = if k = k' then some v else l.lookup k := by
  by_cases h : k = k'
  · subst h; simp [List.lookup]
  · have hb : (k == k') = false := beq_eq_false_iff_ne.mpr h
    simp [List.lookup, hb, h]

theorem lookup_eq_none_iff {α : Type} (l : List (String × α)) (k : String) :
    l.lookup k = none ↔ k ∉ l.map Prod.fst := by
  induction l with
  | nil => simp
  | cons kv rest ih =>
    obtain ⟨k', v⟩ := kv
    rw [lookup_cons]
    by_cases h : k = k' <;> simp [h, ih]

theorem mem_of_lookup_eq_some {α : Type} {l : List (String × α)} {k : String} {v : α}
    (h : l.lookup k = some v) : (k, v) ∈ l := by
  induction l with
  | nil => simp [List.lookup] at h
  | cons kv rest ih =>
    obtain ⟨k', v'⟩ := kv
    rw [lookup_cons] at h
    by_cases hk : k = k'
    · simp [hk] at h
      simp [hk, h]
    · simp [hk] at h
      exact List.mem_cons_of_mem _ (ih h)

theorem lookup_eq_some_of_mem {α : Type} {l : List (String × α)} {k : String} {v : α}
    (hn : (l.map Prod.fst).Nodup) (h : (k, v) ∈ l) : l.lookup k = some v := by
  induction l with
  | nil => simp at h
  | cons kv rest ih =>
    obtain ⟨k', v'⟩ := kv
    simp only [List.map_cons, List.nodup_cons] at hn
    rw [lookup_cons]
    rcases List.mem_cons.mp h with heq | hmem
    · simp [Prod.ext_iff] at heq
      simp [heq.1, heq.2]
    · have hk : k ≠ k' := by
        rintro rfl
        exact hn.1 (List.mem_map.mpr ⟨(k, v), hmem, rfl⟩)
      simp [hk]
      exact ih hn.2 hmem

theorem lookup_append_of_none {α : Type} {l1 : List (String × α)} (l2 : List (String × α))
    {k : String} (h : l1.lookup k = none) : (l1 ++ l2).lookup k = l2.lookup k := by
  induction l1 with
  | nil => simp
  | cons kv rest ih =>
    obtain ⟨k', v'⟩ := kv
    rw [lookup_cons] at h
    by_cases hk : k = k'
    · simp [hk] at h
    · rw [List.cons_append, lookup_cons, if_neg hk]
      exact ih (by simpa [hk] using h)

theorem lookup_append_of_some {α : Type} {l1 : List (String × α)} (l2 : List (String × α))
    {k : String} {v : α} (h : l1.lookup k = some v) : (l1 ++ l2).lookup k = some v := by
  induction l1 with
  | nil => simp [List.lookup] at h
  | cons kv rest ih =>
    obtain ⟨k', v'⟩ := kv
    rw [lookup_cons] at h
    rw [List.cons_append, lookup_cons]
    by_cases hk : k = k' <;> simp [hk] at h ⊢
    · exact h
    · exact ih h

theorem dictInsert_of_lookup_none {α : Type} {l : List (String × α)} {k : String}
    (v : α) (h : l.lookup k = none) : dictInsert l k v = l ++ [(k, v)] := by
  induction l with
  | nil => rfl
  | cons kv rest ih =>
    obtain ⟨k', v'⟩ := kv
    rw [lookup_cons] at h
    by_cases hk : k = k'
    · simp [hk] at h
    · have hk' : ¬ k' = k := fun hh => hk hh.symm
      simp only [dictInsert, if_neg hk', List.cons_append, List.cons.injEq, true_and]
      exact ih (by simpa [hk] using h)

theorem lookup_dictInsert_self {α : Type} (l : List (String × α)) (k : String) (v : α) :
    (dictInsert l k v).lookup k = some v := by
  induction l with
  | nil => simp [dictInsert, List.lookup]
  | cons kv rest ih =>
    obtain ⟨k', v'⟩ := kv
    by_cases hk : k' = k
    · simp [dictInsert, hk, lookup_cons]
    · simp only [dictInsert, if_neg hk]
      rw [lookup_cons, if_neg (fun hh => hk hh.symm)]
      exact ih

/-- Folding Python-dict insertion over items whose keys are fresh and
pairwise distinct just appends the corresponding pairs. -/
theorem foldl_dictInsert_fresh {α β : Type} (keyOf : β → String) (valOf : β → α) :
    ∀ (items : List β) (base : List (String × α)),
    (items.map keyOf).Nodup →
    (∀ b ∈ items, base.lookup (keyOf b) = none) →
    items.foldl (fun ps b => dictInsert ps (keyOf b) (valOf b)) base
      = base ++ items.map (fun b => (keyOf b, valOf b))
  | [], base, _, _ => by simp
  | b :: rest, base, hnd, hfresh => by
    simp only [List.map_cons, List.nodup_cons] at hnd
    have hb := hfresh b (List.mem_cons_self _ _)
    rw [List.foldl_cons, dictInsert_of_lookup_none _ hb,
      foldl_dictInsert_fresh keyOf valOf rest (base ++ [(keyOf b, valOf b)]) hnd.2]
    · simp
    · intro b' hb'
      rw [lookup_append_of_none _ (hfresh b' (List.mem_cons_of_mem _ hb'))]
      rw [lookup_cons]
      have : keyOf b' ≠ keyOf b := by
        intro hh
        exact hnd.1 (hh ▸ List.mem_map.mpr ⟨b', hb', rfl⟩)
      simp [this]

theorem dbByKey_eq_map {db : List Permission} (h : (db.map Permission.key).Nodup) :
    dbByKey db = db.map (fun p => (p.key, p)) := by
  have := foldl_dictInsert_fresh Permission.key id db [] h (by intro b _; rfl)
  simpa [dbByKey] using this

theorem lookup_dbByKey_of_mem {db : List Permission} {p : Permission}
    (h : (db.map Permission.key).Nodup) (hp : p ∈ db) :
    (dbByKey db).lookup p.key = some p := by
  rw [dbByKey_eq_map h]
  refine lookup_eq_some_of_mem ?_ (List.mem_map.mpr ⟨p, hp, rfl⟩)
  simpa [Function.comp] using h

theorem lookup_dbByKey_eq_some {db : List Permission} {k : String} {q : Permission}
    (h : (db.map Permission.key).Nodup)
    (hl : (dbByKey db).lookup k = some q) : q ∈ db ∧ q.key = k := by
  rw [dbByKey_eq_map h] at hl
  have := mem_of_lookup_eq_some hl
  rcases List.mem_map.mp this with ⟨p, hp, heq⟩
  obtain ⟨h1, h2⟩ := Prod.mk.injEq _ _ _ _ ▸ heq
  exact ⟨h2 ▸ hp, h2 ▸ h1.symm ▸ rfl⟩

theorem lookup_dbByKey_eq_none {db : List Permission} {k : String}
    (h : (db.map Permission.key).Nodup) :
    (dbByKey db).lookup k = none ↔ k ∉ db.map Permission.key := by
  rw [dbByKey_eq_map h, lookup_eq_none_iff]
  simp [Function.comp]

/-! ### Save and sync-phase lemmas -/

theorem le_foldl_max (l : List Permission) (a : Nat) :
    a ≤ l.foldl (fun m q => max m (q.pk.getD 0)) a := by
  induction l generalizing a with
  | nil => exact le_refl a
  | cons q rest ih =>
    exact le_trans (le_max_left a (q.pk.getD 0)) (ih _)

theorem mem_le_foldl_max {l : List Permission} {p : Permission} (hp : p ∈ l) (a : Nat) :
    p.pk.getD 0 ≤ l.foldl (fun m q => max m (q.pk.getD 0)) a := by
  induction l generalizing a with
  | nil => simp at hp
  | cons q rest ih =>
    rcases List.mem_cons.mp hp with rfl | hmem
    · exact le_trans (le_max_right a (p.pk.getD 0)) (le_foldl_max rest _)
    · exact ih hmem _

theorem freshPk_gt {db : List Permission} {p : Permission} {j : Nat}
    (hp : p ∈ db) (hj : p.pk = some j) : j < freshPk db := by
  have := mem_le_foldl_max hp 0
  rw [hj] at this
  simpa [freshPk, Nat.lt_succ_iff] using this

theorem contains_eq_false_iff {l : List Char} {a : Char} :
    l.contains a = false ↔ a ∉ l := by simp

/-- Shape of a successful `Permission.save` of a fresh (pk-less) row: it is
appended with the next pk; key, label, description and flags are kept; when
`module`/`capability` were empty they are populated from the key, which must
contain a dot for the save to validate. -/
theorem permSave_new_ok {db db2 : List Permission} {p : Permission}
    (hpk : p.pk = none) (h : permSave db p = .ok db2) :
    ∃ row, db2 = db ++ [row] ∧ row.pk = some (freshPk db) ∧ row.key = p.key ∧
      row.label = p.label ∧ row.description = p.description ∧
      row.is_active = p.is_active ∧ row.is_deprecated = p.is_deprecated ∧
      (p.module = "" → row.module = (splitKey1 p.key).1) ∧
      (p.module ≠ "" → row.module = p.module) ∧
      (p.capability = "" → row.capability = (splitKey1 p.key).2) ∧
      (p.capability ≠ "" → row.capability = p.capability) ∧
      p.key.toList.contains '.' = true ∧ p.key ≠ "" := by
  obtain ⟨ppk, pkey, pmod, pcap, plab, pdesc, pact, pdep⟩ := p
  simp only at hpk
  subst hpk
  unfold permSave at h
  simp only [if_neg Bool.false_ne_true] at h
  simp only at h ⊢
  by_cases hc : pkey ≠ "" ∧ pkey.toList.contains '.' = true
  · rw [if_pos hc] at h
    split at h
    · simp at h
    · simp only at h
      simp only [Except.ok.injEq] at h
      refine ⟨_, h.symm, rfl, rfl, rfl, rfl, rfl, rfl, ?_, ?_, ?_, ?_, hc.2, hc.1⟩
      · intro hm; simp [hm]
      · intro hm; simp [hm]
      · intro hm; simp [hm]
      · intro hm; simp [hm]
  · rw [if_neg hc] at h
    unfold permClean at h
    simp only at h
    by_cases hk0 : pkey = ""
    · rw [if_pos hk0] at h; simp at h
    · rw [if_neg hk0] at h
      have hnc : ¬ pkey.toList.contains '.' = true := by
        intro hcc; exact hc ⟨hk0, hcc⟩
      rw [if_pos hnc] at h
      simp at h

/-- Characterisation of the create loop of `_execute_sync` on success. -/
theorem createAll_ok {cs : List PermissionDefinition} :
    ∀ {db db2 : List Permission} {ks : List String},
    createAll db cs = .ok (db2, ks) →
    ∃ news, db2 = db ++ news ∧ ks = cs.map (fun d => d.key) ∧
      List.Forall₂ (fun (d : PermissionDefinition) (q : Permission) =>
        q.key = d.key ∧ q.label = d.label ∧ q.description = d.description ∧
        q.is_active = true ∧ q.is_deprecated = false ∧
        ∃ m, q.pk = some m ∧ ∀ p ∈ db, ∀ j, p.pk = some j → j < m) cs news := by
  induction cs with
  | nil =>
    intro db db2 ks h
    simp only [createAll, Except.ok.injEq, Prod.mk.injEq] at h
    exact ⟨[], by simp [h.1.symm], h.2.symm, List.Forall₂.nil⟩
  | cons d rest ih =>
    intro db db2 ks h
    unfold createAll at h
    split at h
    · simp at h
    · rename_i dbA hs
      split at h
      · simp at h
      · rename_i db'' keys hr
        simp only [Except.ok.injEq, Prod.mk.injEq] at h
        obtain ⟨hdb, hks⟩ := h
        obtain ⟨row, hA, hrpk, hrkey, hrlab, hrdesc, hract, hrdep, _, _, _, _, _, _⟩ :=
          permSave_new_ok rfl hs
        obtain ⟨news', hdb'', hkeys, hfa⟩ := ih hr
        refine ⟨row :: news', ?_, ?_, ?_⟩
        · rw [← hdb, hdb'', hA]; simp
        · rw [← hks, hkeys]; simp
        · refine List.Forall₂.cons ⟨hrkey, hrlab, hrdesc, hract, hrdep,
            freshPk db, hrpk, fun p hp j hj => freshPk_gt hp hj⟩ ?_
          refine hfa.imp ?_
          rintro d' q ⟨h1, h2, h3, h4, h5, m, hm, hbound⟩
          exact ⟨h1, h2, h3, h4, h5, m, hm,
            fun p hp j hj => hbound p (by rw [hA]; exact List.mem_append_left _ hp) j hj⟩

/-- Net effect of the update loop on one row: the row is rewritten by the
first planned definition sharing its key, if any. -/
def applyUpd (us : List PermissionDefinition) (q : Permission) : Permission :=
  match us.find? (fun d => d.key == q.key) with
  | some d => { q with label := d.label, description := d.description, is_active := true }
  | none => q

theorem applyUpd_nil (q : Permission) : applyUpd [] q = q := rfl

theorem applyUpd_of_not_mem {us : List PermissionDefinition} {q : Permission}
    (h : q.key ∉ us.map (fun d => d.key)) : applyUpd us q = q := by
  unfold applyUpd
  cases hf : us.find? (fun d => d.key == q.key) with
  | none => rfl
  | some d =>
    exfalso
    have hd := List.find?_some hf
    have hmem := List.mem_of_find?_eq_some hf
    exact h (List.mem_map.mpr ⟨d, hmem, by simpa using hd⟩)

theorem applyUpd_of_mem {us : List PermissionDefinition} {q : Permission}
    {d : PermissionDefinition} (hn : (us.map (fun d => d.key)).Nodup)
    (hd : d ∈ us) (hk : d.key = q.key) :
    applyUpd us q =
      { q with label := d.label, description := d.description, is_active := true } := by
  unfold applyUpd
  have : us.find? (fun d => d.key == q.key) = some d := by
    induction us with
    | nil => simp at hd
    | cons u rest ih =>
      simp only [List.map_cons, List.nodup_cons] at hn
      rcases List.mem_cons.mp hd with rfl | hmem
      · simp [List.find?_cons, hk]
      · have hne : ¬ u.key = q.key := by
          intro he
          exact hn.1 (he ▸ hk ▸ List.mem_map.mpr ⟨d, hmem, rfl⟩)
        rw [List.find?_cons]
        simp only [beq_eq_false_iff_ne.mpr hne, cond_false]
        exact ih hn.2 hmem
  rw [this]

/-- With pairwise-distinct planned keys, the update loop maps `applyUpd`
over the store and reports the planned keys in order. -/
theorem updateAll_eq {us : List PermissionDefinition}
    (hn : (us.map (fun d => d.key)).Nodup) :
    ∀ db : List Permission,
      updateAll db us = (db.map (applyUpd us), us.map (fun d => d.key)) := by
  induction us with
  | nil =>
    intro db
    have hfun : applyUpd ([] : List PermissionDefinition) = id :=
      funext fun q => applyUpd_nil q
    simp [updateAll, hfun]
  | cons d rest ih =>
    intro db
    simp only [List.map_cons, List.nodup_cons] at hn
    simp only [updateAll, ih hn.2 (updOne db d), List.map_cons, Prod.mk.injEq,
      and_true, true_and]
    unfold updOne
    rw [List.map_map]
    refine List.map_congr_left ?_
    intro q _
    simp only [Function.comp]
    by_cases hq : q.key = d.key
    · rw [if_pos hq]
      have h1 : applyUpd (d :: rest)
          q = { q with label := d.label, description := d.description, is_active := true } := by
        unfold applyUpd
        simp [List.find?_cons, hq.symm]
      rw [h1, applyUpd_of_not_mem]
      intro hmem
      exact hn.1 (by simpa [hq] using hmem)
    · rw [if_neg hq]
      unfold applyUpd
      rw [List.find?_cons]
      simp only [beq_eq_false_iff_ne.mpr (fun he : d.key = q.key => hq he.symm), cond_false]

/-- The update loop preserves each row's key, pk, module, capability and
deprecation flag, and leaves rows whose key is not planned untouched; no
distinctness assumptions needed. -/
theorem updateAll_shape (us : List PermissionDefinition) :
    ∀ db : List Permission,
      (updateAll db us).2 = us.map (fun d => d.key) ∧
      List.Forall₂ (fun (q q2 : Permission) =>
        q2.key = q.key ∧ q2.pk = q.pk ∧ q2.module = q.module ∧
        q2.capability = q.capability ∧ q2.is_deprecated = q.is_deprecated ∧
        (q.key ∉ us.map (fun d => d.key) → q2 = q)) db (updateAll db us).1 := by
  induction us with
  | nil =>
    intro db
    refine ⟨rfl, ?_⟩
    simp only [updateAll]
    exact (List.forall₂_same).mpr (fun q _ => ⟨rfl, rfl, rfl, rfl, rfl, fun _ => rfl⟩)
  | cons d rest ih =>
    intro db
    obtain ⟨ihk, ihf⟩ := ih (updOne db d)
    constructor
    · simp [updateAll, ihk]
    · simp only [updateAll]
      have : List.Forall₂ (fun (q q2 : Permission) =>
          q2.key = q.key ∧ q2.pk = q.pk ∧ q2.module = q.module ∧
          q2.capability = q.capability ∧ q2.is_deprecated = q.is_deprecated ∧
          (q.key ∉ rest.map (fun d => d.key) → q2 = q))
          (updOne db d) (updateAll (updOne db d) rest).1 := ihf
      rw [updOne, List.forall₂_map_left_iff] at this
      refine this.imp ?_
      intro q q2 hq
      by_cases hk : q.key = d.key
      · rw [if_pos hk] at hq
        refine ⟨hq.1, hq.2.1, hq.2.2.1, hq.2.2.2.1, hq.2.2.2.2.1, ?_⟩
        intro hnmem
        exact absurd (by simp [hk]) hnmem
      · rw [if_neg hk] at hq
        refine ⟨hq.1, hq.2.1, hq.2.2.1, hq.2.2.2.1, hq.2.2.2.2.1, ?_⟩
        intro hnmem
        refine hq.2.2.2.2.2 ?_
        intro hmem
        exact hnmem (List.mem_cons_of_mem _ hmem)

theorem forall₂_mem_left {α β : Type} {r : α → β → Prop} {l1 : List α} {l2 : List β}
    (h : List.Forall₂ r l1 l2) {a : α} (ha : a ∈ l1) : ∃ b ∈ l2, r a b := by
  induction h with
  | nil => simp at ha
  | @cons x y tl1 tl2 hr _ ihh =>
    cases ha with
    | head => exact ⟨y, List.mem_cons_self _ _, hr⟩
    | tail _ h2 =>
      rcases ihh h2 with ⟨b, hb, hrb⟩
      exact ⟨b, List.mem_cons_of_mem _ hb, hrb⟩

theorem forall₂_mem_right {α β : Type} {r : α → β → Prop} {l1 : List α} {l2 : List β}
    (h : List.Forall₂ r l1 l2) {b : β} (hb : b ∈ l2) : ∃ a ∈ l1, r a b := by
  induction h with
  | nil => simp at hb
  | @cons x y tl1 tl2 hr _ ihh =>
    cases hb with
    | head => exact ⟨x, List.mem_cons_self _ _, hr⟩
    | tail _ h2 =>
      rcases ihh h2 with ⟨a, ha, hra⟩
      exact ⟨a, List.mem_cons_of_mem _ ha, hra⟩

/-! ### Orphan-phase lemmas -/

theorem orphanPhase_warn (db : List Permission) (os : List Permission) :
    orphanPhase "warn" db os = .ok (db, os.map (fun p => p.key)) := by
  induction os with
  | nil => rfl
  | cons p rest ih => simp [orphanPhase, ih]

theorem orphanPhase_error_cons (db : List Permission) (p : Permission)
    (rest : List Permission) :
    orphanPhase "error" db (p :: rest) = .error (.orphanedError p.key) := by
  simp [orphanPhase]

theorem orphanPhase_delete (db : List Permission) (os : List Permission) :
    orphanPhase "delete" db os = .ok (os.foldl deleteByPk db, os.map (fun p => p.key)) := by
  induction os generalizing db with
  | nil => rfl
  | cons p rest ih =>
    simp [orphanPhase, ih (deleteByPk db p)]

theorem mem_foldl_deleteByPk {os : List Permission} :
    ∀ {db : List Permission} {q : Permission},
      q ∈ os.foldl deleteByPk db ↔ q ∈ db ∧ ∀ p ∈ os, q.pk ≠ p.pk := by
  induction os with
  | nil => intro db q; simp
  | cons p rest ih =>
    intro db q
    rw [List.foldl_cons, ih]
    unfold deleteByPk
    rw [List.mem_filter]
    constructor
    · rintro ⟨⟨hq, hpk⟩, hrest⟩
      refine ⟨hq, ?_⟩
      intro p' hp'
      rcases List.mem_cons.mp hp' with rfl | hmem
      · simpa using hpk
      · exact hrest p' hmem
    · rintro ⟨hq, hall⟩
      exact ⟨⟨hq, by simpa using hall p (List.mem_cons_self _ _)⟩,
        fun p' hp' => hall p' (List.mem_cons_of_mem _ hp')⟩

/-! ### `_execute_sync` destructuring -/

theorem execute_sync_ok_elim {a : String} {db db3 : List Permission} {plan : SyncPlan}
    {res : SyncResult} (h : execute_sync a db plan = .ok (db3, res)) :
    ∃ db1 db2 orph,
      createAll db plan.create = .ok (db1, res.created) ∧
      updateAll db1 plan.update = (db2, res.updated) ∧
      orphanPhase a db2 plan.orphaned = .ok (db3, orph) ∧
      res.orphaned = orph := by
  unfold execute_sync at h
  split at h
  · simp at h
  · rename_i db1 created hc
    cases hu : updateAll db1 plan.update with
    | mk db2 updated =>
      rw [hu] at h
      dsimp only at h
      split at h
      · simp at h
      · rename_i db3' orph ho
        simp only [Except.ok.injEq, Prod.mk.injEq] at h
        obtain ⟨hdb3, hres⟩ := h
        refine ⟨db1, db2, orph, ?_, ?_, ?_, ?_⟩
        · rw [hc, ← hres]
        · rw [hu, ← hres]
        · rw [ho, hdb3]
        · rw [← hres]

theorem execute_sync_ok_intro {a : String} {db db1 db2 db3 : List Permission}
    {plan : SyncPlan} {created updated orph : List String}
    (hc : createAll db plan.create = .ok (db1, created))
    (hu : updateAll db1 plan.update = (db2, updated))
    (ho : orphanPhase a db2 plan.orphaned = .ok (db3, orph)) :
    execute_sync a db plan =
      .ok (db3, { created := created, updated := updated, orphaned := orph }) := by
  unfold execute_sync
  rw [hc]
  dsimp only
  rw [hu]
  dsimp only
  rw [ho]

/-! ### Plan membership lemmas -/

theorem mem_plan_create {definitions : List (String × PermissionDefinition)}
    {dbp : List (String × Permission)} {d : PermissionDefinition} :
    d ∈ (plan_sync definitions dbp).create ↔
      ∃ k, (k, d) ∈ definitions ∧ dbp.lookup k = none := by
  unfold plan_sync
  simp only [List.mem_filterMap]
  constructor
  · rintro ⟨⟨k, d'⟩, hmem, hcond⟩
    by_cases hl : (dbp.lookup k).isNone
    · rw [if_pos hl] at hcond
      simp only [Option.some.injEq] at hcond
      exact ⟨k, hcond ▸ hmem, Option.isNone_iff_eq_none.mp hl⟩
    · rw [if_neg hl] at hcond; simp at hcond
  · rintro ⟨k, hmem, hl⟩
    exact ⟨(k, d), hmem, by simp [hl]⟩

theorem mem_plan_update {definitions : List (String × PermissionDefinition)}
    {dbp : List (String × Permission)} {d : PermissionDefinition} :
    d ∈ (plan_sync definitions dbp).update ↔
      ∃ k existing, (k, d) ∈ definitions ∧ dbp.lookup k = some existing ∧
        metadata_changed existing d = true := by
  unfold plan_sync
  simp only [List.mem_filterMap]
  constructor
  · rintro ⟨⟨k, d'⟩, hmem, hcond⟩
    cases hl : dbp.lookup k with
    | none => rw [hl] at hcond; simp at hcond
    | some existing =>
      rw [hl] at hcond
      dsimp only at hcond
      by_cases hmc : metadata_changed existing d' = true
      · rw [if_pos hmc] at hcond
        simp only [Option.some.injEq] at hcond
        exact ⟨k, existing, hcond ▸ hmem, hl, hcond ▸ hmc⟩
      · rw [if_neg hmc] at hcond; simp at hcond
  · rintro ⟨k, existing, hmem, hl, hmc⟩
    refine ⟨(k, d), hmem, ?_⟩
    rw [hl]
    dsimp only
    rw [if_pos hmc]

theorem mem_plan_orphaned {definitions : List (String × PermissionDefinition)}
    {dbp : List (String × Permission)} {p : Permission} :
    p ∈ (plan_sync definitions dbp).orphaned ↔
      ∃ k, (k, p) ∈ dbp ∧ definitions.lookup k = none := by
  unfold plan_sync
  simp only [List.mem_filterMap]
  constructor
  · rintro ⟨⟨k, p'⟩, hmem, hcond⟩
    by_cases hl : (definitions.lookup k).isNone
    · rw [if_pos hl] at hcond
      simp only [Option.some.injEq] at hcond
      exact ⟨k, hcond ▸ hmem, Option.isNone_iff_eq_none.mp hl⟩
    · rw [if_neg hl] at hcond; simp at hcond
  · rintro ⟨k, hmem, hl⟩
    exact ⟨(k, p), hmem, by simp [hl]⟩

/-- Every key in the `create` sub-plan is an association key of the
definitions dict. -/
theorem plan_create_sublist {definitions : List (String × PermissionDefinition)}
    {dbp : List (String × Permission)} :
    ((plan_sync definitions dbp).create.map (fun d => d.key)).Sublist
      (definitions.map (fun kd => kd.2.key)) := by
  unfold plan_sync
  simp only
  induction definitions with
  | nil => simp
  | cons kd rest ih =>
    rw [List.filterMap_cons]
    by_cases hl : (dbp.lookup kd.1).isNone
    · rw [if_pos hl]
      simp only [List.map_cons]
      exact List.Sublist.cons₂ _ ih
    · rw [if_neg hl]
      exact ih.trans (List.sublist_cons_self _ _)

theorem plan_update_sublist {definitions : List (String × PermissionDefinition)}
    {dbp : List (String × Permission)} :
    ((plan_sync definitions dbp).update.map (fun d => d.key)).Sublist
      (definitions.map (fun kd => kd.2.key)) := by
  unfold plan_sync
  simp only
  induction definitions with
  | nil => simp
  | cons kd rest ih =>
    rw [List.filterMap_cons]
    cases hl : dbp.lookup kd.1 with
    | none =>
      dsimp only
      exact ih.trans (List.sublist_cons_self _ _)
    | some existing =>
      dsimp only
      by_cases hmc : metadata_changed existing kd.2 = true
      · rw [if_pos hmc]
        simp only [List.map_cons]
        exact List.Sublist.cons₂ _ ih
      · rw [if_neg hmc]
        exact ih.trans (List.sublist_cons_self _ _)

/-! ### String and key lemmas -/

theorem string_data_append (s t : String) : (s ++ t).data = s.data ++ t.data := rfl

theorem string_ext {s t : String} (h : s.data = t.data) : s = t := by
  cases s; cases t; exact congrArg _ h

theorem string_append_left_cancel {s t u : String} (h : s ++ t = s ++ u) : t = u := by
  apply string_ext
  have := congrArg String.data h
  rw [string_data_append, string_data_append] at this
  exact List.append_cancel_left this

theorem key_of_capability_injective (name : String) {c1 c2 : String}
    (h : name ++ "." ++ c1 = name ++ "." ++ c2) : c1 = c2 :=
  string_append_left_cancel h

theorem dropWhile_ne_dot {l : List Char} (h : '.' ∈ l) :
    ∃ t, l.dropWhile (fun c => c != '.') = '.' :: t := by
  induction l with
  | nil => simp at h
  | cons c cs ih =>
    by_cases hc : c = '.'
    · subst hc
      exact ⟨cs, by simp [List.dropWhile]⟩
    · have hmem : '.' ∈ cs := by
        rcases List.mem_cons.mp h with he | hm
        · exact absurd he.symm hc
        · exact hm
      rcases ih hmem with ⟨t, ht⟩
      refine ⟨t, ?_⟩
      rw [List.dropWhile_cons]
      simp only [bne_iff_ne, ne_eq, hc, not_false_eq_true, if_true]
      exact ht

/-- `key.split(".", 1)` really splits at the first dot: the pieces
reassemble to the key and the first piece is dot-free. -/
theorem splitKey1_spec {key : String} (h : key.toList.contains '.' = true) :
    (splitKey1 key).1 ++ "." ++ (splitKey1 key).2 = key ∧
    (splitKey1 key).1.toList.contains '.' = false := by
  have hmem : '.' ∈ key.toList := by simpa using h
  rcases dropWhile_ne_dot hmem with ⟨t, ht⟩
  constructor
  · apply string_ext
    rw [string_data_append, string_data_append]
    have hdot : ("." : String).data = ['.'] := rfl
    rw [hdot]
    unfold splitKey1
    simp only
    show (key.toList.takeWhile (fun c => c != '.')) ++ ['.'] ++
      ((key.toList.dropWhile (fun c => c != '.')).tail) = key.data
    rw [ht]
    have hta := List.takeWhile_append_dropWhile (fun c => c != '.') key.toList
    rw [ht] at hta
    rw [List.append_assoc, List.singleton_append, List.tail_cons]
    exact hta
  · unfold splitKey1
    simp only
    rw [contains_eq_false_iff]
    intro hdot
    have := List.mem_takeWhile_imp hdot
    simp at this

/-! ### Registry generation lemmas -/

/-- `genCrudPerms` never touches the module map or the configuration. -/
theorem genCrudPerms_preserves (name : String) (cs : List String) :
    ∀ r : Registry,
      (genCrudPerms name cs r).1.modules = r.modules ∧
      (genCrudPerms name cs r).1.orphan_action = r.orphan_action := by
  induction cs with
  | nil => intro r; exact ⟨rfl, rfl⟩
  | cons c rest ih =>
    intro r
    unfold genCrudPerms
    by_cases hc : c ∈ STANDARD_CRUD
    · rw [if_pos hc]; exact ih _
    · rw [if_neg hc]; exact ⟨rfl, rfl⟩

theorem genActionPerms_preserves (name : String) (cs : List String) :
    ∀ r : Registry,
      (genActionPerms name cs r).modules = r.modules ∧
      (genActionPerms name cs r).orphan_action = r.orphan_action := by
  induction cs with
  | nil => intro r; exact ⟨rfl, rfl⟩
  | cons c rest ih =>
    intro r
    unfold genActionPerms
    exact ih _

/-- The `PermissionDefinition` generated for a crud capability. -/
def crudPd (name c : String) : PermissionDefinition :=
  { key := name ++ "." ++ c, module := name, capability := c
    label := generate_crud_label c name, description := "", type := "crud" }

/-- The `PermissionDefinition` generated for a custom action. -/
def actionPd (name a : String) : PermissionDefinition :=
  { key := name ++ "." ++ a, module := name, capability := a
    label := generate_action_label a name, description := "", type := "action" }

theorem genCrudPerms_ok_valid {name : String} {cs : List String} :
    ∀ {r : Registry}, (genCrudPerms name cs r).2 = none → ∀ c ∈ cs, c ∈ STANDARD_CRUD := by
  induction cs with
  | nil => intro r _ c hc; simp at hc
  | cons c rest ih =>
    intro r h c' hc'
    unfold genCrudPerms at h
    by_cases hc : c ∈ STANDARD_CRUD
    · rw [if_pos hc] at h
      rcases List.mem_cons.mp hc' with rfl | hm
      · exact hc
      · exact ih h c' hm
    · rw [if_neg hc] at h; simp at h

theorem genCrudPerms_ok_perms {name : String} {cs : List String} :
    ∀ {r : Registry}, (∀ c ∈ cs, c ∈ STANDARD_CRUD) →
      genCrudPerms name cs r =
        ({ r with permissions := (cs.foldl
            (fun ps c => dictInsert ps (name ++ "." ++ c) (crudPd name c))
            r.permissions) }, none) := by
  induction cs with
  | nil => intro r _; simp [genCrudPerms]
  | cons c rest ih =>
    intro r hall
    unfold genCrudPerms
    rw [if_pos (hall c (List.mem_cons_self _ _))]
    rw [ih (fun c' hc' => hall c' (List.mem_cons_of_mem _ hc'))]
    simp [crudPd]

theorem genActionPerms_perms (name : String) (cs : List String) :
    ∀ r : Registry,
      genActionPerms name cs r =
        { r with permissions := (cs.foldl
            (fun ps a => dictInsert ps (name ++ "." ++ a) (actionPd name a))
            r.permissions) } := by
  induction cs with
  | nil => intro r; simp [genActionPerms]
  | cons a rest ih =>
    intro r
    unfold genActionPerms
    rw [ih]
    simp [actionPd]

/-- Reaching the first invalid crud capability: the error is raised there,
with the module map (already containing the new module) left mutated. -/
theorem genCrudPerms_invalid {name : String} {cs1 : List String} :
    ∀ {r : Registry} {c : String} {cs2 : List String},
      (∀ c' ∈ cs1, c' ∈ STANDARD_CRUD) → c ∉ STANDARD_CRUD →
      (genCrudPerms name (cs1 ++ c :: cs2) r).2 = some (.invalidCapability c) := by
  induction cs1 with
  | nil =>
    intro r c cs2 _ hc
    rw [List.nil_append]
    unfold genCrudPerms
    dsimp only
    rw [if_neg hc]
  | cons c1 rest ih =>
    intro r c cs2 hall hc
    rw [List.cons_append]
    unfold genCrudPerms
    dsimp only
    rw [if_pos (hall c1 (List.mem_cons_self _ _))]
    exact ih (fun c' hc' => hall c' (List.mem_cons_of_mem _ hc')) hc

/-! ### `validate` lemmas -/

theorem foldl_append_eq {α : Type} (f : α → List String) :
    ∀ (l : List α) (acc : List String),
      l.foldl (fun es x => es ++ f x) acc = acc ++ (l.map f).flatten := by
  intro l
  induction l with
  | nil => intro acc; simp
  | cons x rest ih =>
    intro acc
    rw [List.foldl_cons, ih]
    simp

theorem validate_mem_of_entry {r : Registry} {kp : String × PermissionDefinition}
    {e : String} (hkp : kp ∈ r.permissions) (he : e ∈ validateEntryErrors kp) :
    e ∈ validate r := by
  unfold validate
  have hmem : e ∈ (r.permissions.foldl (fun errs kp => errs ++ validateEntryErrors kp) []) := by
    rw [foldl_append_eq]
    simp only [List.nil_append, List.mem_flatten]
    exact ⟨validateEntryErrors kp, List.mem_map.mpr ⟨kp, hkp, rfl⟩, he⟩
  by_cases hd : r.permissions.length ≠ ((r.permissions.map (fun kp => kp.1)).dedup).length
  · rw [if_pos hd]
    exact List.mem_append_left _ hmem
  · rw [if_neg hd]
    exact hmem

/-! ### Claim theorems -/

/-- C1: the spec claims opt-in semantics — an authenticated principal asking
for a capability whose permission key was never declared in the registry
(module registered with `crud=["view"]` only, action `"create"`) should be
allowed.  The resolver in `permissions.py` never consults the registry:
`check_permission` only tests membership in the principal's grant set, so
`resolve` returns `false` here, contradicting the spec and the repository's
own tests (which assert `True` and call a `permission_exists_in_registry`
method that does not exist). -/
theorem c1_resolver_lacks_opt_in_allow :
    resolve true (some "users") "create" "POST" [] = false := by decide

/-- C10: `UPRHelper.add_permission` first deletes all of the principal's
grants, then grants exactly the requested keys that exist as persisted
permissions (active or not); missing keys are dropped silently and the call
returns `True`. -/
theorem c10_add_permission_replaces_grants (user : Nat) (ups : List UserPermissionRow)
    (perms : List Permission) (permission_keys : List String) :
    (add_permission user ups perms permission_keys).2 = true ∧
    ∀ k : String,
      (∃ g ∈ (add_permission user ups perms permission_keys).1,
          g.user = user ∧ g.perm.key = k) ↔
      (k ∈ permission_keys ∧ ∃ p ∈ perms, p.key = k) := by
  refine ⟨rfl, fun k => ?_⟩
  unfold add_permission
  simp only [List.mem_append, List.mem_filter, List.mem_map]
  constructor
  · rintro ⟨g, hg | ⟨p, ⟨hp, hpk⟩, rfl⟩, hu, hk⟩
    · have := hg.2
      simp only [decide_eq_true_eq] at this
      exact absurd hu this
    · simp only at hu hk
      refine ⟨?_, p, hp, hk⟩
      have : p.key ∈ permission_keys := by simpa using hpk
      exact hk ▸ this
  · rintro ⟨hk, p, hp, rfl⟩
    have hcont : permission_keys.contains p.key = true := by simpa using hk
    exact ⟨UserPermissionRow.mk user p, Or.inr ⟨p, ⟨hp, hcont⟩, rfl⟩, rfl, rfl⟩

/-- C9: a `Permission` saved with only its key set (empty module and
capability) derives, on success, `module` as the text before the first dot
and `capability` as the remainder: the stored key re-assembles as
`module + "." + capability` with a dot-free module. -/
theorem c9_key_derivation (db : List Permission) (key lab desc : String)
    (act dep : Bool) (db2 : List Permission)
    (h : permSave db { pk := none, key := key, module := "", capability := "",
                       label := lab, description := desc, is_active := act,
                       is_deprecated := dep }
      = .ok db2) :
    ∃ row, db2 = db ++ [row] ∧ row.key = key ∧
      row.key = row.module ++ "." ++ row.capability ∧
      row.module.toList.contains '.' = false := by
  obtain ⟨row, hdb, _, hkey, _, _, _, _, hmod, _, hcap, _, hdot, _⟩ :=
    permSave_new_ok rfl h
  have hm := hmod rfl
  have hc := hcap rfl
  obtain ⟨hcat, hfree⟩ := splitKey1_spec hdot
  refine ⟨row, hdb, hkey, ?_, ?_⟩
  · rw [hkey, hm, hc, hcat]
  · rw [hm]; exact hfree

/-- Witness for C9 at the concrete key `"users.view"`. -/
theorem c9_key_derivation_witness :
    ∃ row,
      ([{ pk := some 1, key := "users.view", module := "users", capability := "view",
          label := "V", description := "", is_active := true,
          is_deprecated := false }] : List Permission) = [] ++ [row] ∧
      row.key = "users.view" ∧
      row.key = row.module ++ "." ++ row.capability ∧
      row.module.toList.contains '.' = false :=
  c9_key_derivation [] "users.view" "V" "" true false _ rfl

/-- C5 (amended): saving a persisted `Permission` under a key different from
the stored one fails with the immutability `ValidationError` (and, the save
having raised, the store is untouched); `label`, `description`, `is_active`
and `is_deprecated` may be changed freely by `save`.  Contrary to the claim's
parenthetical, `module` and `capability` are not freely mutable: `clean()`
forces them to match the key (see the counterexample). -/
theorem c5_key_immutable_save (db : List Permission) (i : Nat) (original : Permission) :
    (∀ p : Permission, p.pk = some i →
        db.find? (fun q => decide (q.pk = some i)) = some original →
        p.key ≠ original.key →
        permSave db p = .error "Permission keys are immutable and cannot be changed") ∧
    (∀ lab desc : String, ∀ act dep : Bool,
        db.find? (fun q => decide (q.pk = some i)) = some original →
        original.key.toList.contains '.' = true →
        original.module ≠ "" →
        original.capability ≠ "" →
        original.module = (splitKey1 original.key).1 →
        original.capability = (splitKey1 original.key).2 →
        keyFormatValid original.key = true →
        (∀ q ∈ db, q.key = original.key → q.pk = some i) →
        permSave db { original with label := lab, description := desc,
                                    is_active := act, is_deprecated := dep }
          = .ok (db.map (fun q => if q.pk = some i then
              { original with label := lab, description := desc,
                              is_active := act, is_deprecated := dep } else q))) := by
  constructor
  · intro p hp hfind hne
    unfold permSave
    rw [hp]
    dsimp only
    rw [hfind]
    dsimp only
    simp only [decide_eq_true_eq]
    rw [if_pos hne]
  · intro lab desc act dep hfind hdot hmne hcne hmeq hceq hfmt huniq
    obtain ⟨opk, okey, omod, ocap, olab, odesc, oact, odep⟩ := original
    simp only at hfind hdot hmne hcne hmeq hceq hfmt huniq ⊢
    have hpk : opk = some i := by
      have := List.find?_some hfind
      simpa using this
    subst hpk
    have hkne : okey ≠ "" := by
      intro h0
      rw [h0] at hdot
      simp at hdot
    unfold permSave
    dsimp only
    rw [hfind]
    dsimp only
    rw [if_neg (by simp)]
    rw [if_pos (show okey ≠ "" ∧ okey.toList.contains '.' = true from ⟨hkne, hdot⟩)]
    rw [if_neg hmne, if_neg hcne]
    have hclean : permClean db
        { pk := some i, key := okey, module := omod, capability := ocap,
          label := lab, description := desc, is_active := act, is_deprecated := dep }
        = none := by
      unfold permClean
      dsimp only
      rw [if_neg hkne]
      rw [if_neg (show ¬¬(okey.toList.contains '.' = true) by
        simp only [not_not]; exact hdot)]
      rw [if_neg (by rintro ⟨_, hmm⟩; exact hmm hmeq)]
      rw [if_neg (by rintro ⟨_, hcc⟩; exact hcc hceq)]
      rw [if_neg (by simp [hfmt])]
      rw [if_neg ?hany]
      case hany =>
        intro hany
        simp only [List.any_eq_true, decide_eq_true_eq] at hany
        obtain ⟨q, hq, hqk, hqpk⟩ := hany
        exact hqpk (huniq q hq hqk)
    rw [hclean]

/-- Witness for C5 at a one-row store: the key change is rejected with the
immutability error, and a label/flags change is accepted and written. -/
theorem c5_key_immutable_save_witness :
    permSave
        [{ pk := some 1, key := "users.view", module := "users", capability := "view",
           label := "View Users", description := "", is_active := true,
           is_deprecated := false }]
        { pk := some 1, key := "users.other", module := "users", capability := "view",
          label := "View Users", description := "", is_active := true,
          is_deprecated := false }
      = .error "Permission keys are immutable and cannot be changed" ∧
    permSave
        [{ pk := some 1, key := "users.view", module := "users", capability := "view",
           label := "View Users", description := "", is_active := true,
           is_deprecated := false }]
        { pk := some 1, key := "users.view", module := "users", capability := "view",
          label := "L2", description := "D2", is_active := false, is_deprecated := true }
      = .ok [{ pk := some 1, key := "users.view", module := "users", capability := "view",
               label := "L2", description := "D2", is_active := false,
               is_deprecated := true }] := by
  constructor
  · exact (c5_key_immutable_save
      [{ pk := some 1, key := "users.view", module := "users", capability := "view",
         label := "View Users", description := "", is_active := true,
         is_deprecated := false }] 1
      { pk := some 1, key := "users.view", module := "users", capability := "view",
        label := "View Users", description := "", is_active := true,
        is_deprecated := false }).1
      { pk := some 1, key := "users.other", module := "users", capability := "view",
        label := "View Users", description := "", is_active := true,
        is_deprecated := false }
      rfl (by decide) (by decide)
  · have h := (c5_key_immutable_save
      [{ pk := some 1, key := "users.view", module := "users", capability := "view",
         label := "View Users", description := "", is_active := true,
         is_deprecated := false }] 1
      { pk := some 1, key := "users.view", module := "users", capability := "view",
        label := "View Users", description := "", is_active := true,
        is_deprecated := false }).2
      "L2" "D2" false true (by decide) (by decide) (by decide) (by decide)
      (by decide) (by decide) (by decide) (by decide)
    rw [h]
    rfl

/-- Counterexample for C5 as stated: the claim holds `module` may be changed
by `save`; in fact changing a stored row's `module` to a value that no
longer matches the key prefix raises `ValidationError` in `clean()`. -/
theorem c5_counterexample_module_not_mutable :
    permSave
        [{ pk := some 1, key := "users.view", module := "users", capability := "view",
           label := "View Users", description := "", is_active := true,
           is_deprecated := false }]
        { pk := some 1, key := "users.view", module := "other", capability := "view",
          label := "View Users", description := "", is_active := true,
          is_deprecated := false }
      = .error "Module 'other' does not match key prefix 'users'" := by rfl

/-- C8 (amended): `validate` reports an error for every stored definition
whose key differs from `module + "." + capability`, and an error for every
key without a dot; it is a pure function of the registry state.  Contrary to
the claim, the full key-format regex is not enforced: only the presence of a
dot is checked (see the counterexample). -/
theorem c8_validate_reports (r : Registry) :
    (∀ kp ∈ r.permissions, kp.1 ≠ kp.2.module ++ "." ++ kp.2.capability →
        ("Permission key '" ++ kp.1 ++ "' does not match module.capability '" ++
          kp.2.module ++ "." ++ kp.2.capability ++ "'") ∈ validate r) ∧
    (∀ kp ∈ r.permissions, kp.1.toList.contains '.' = false →
        ("Invalid permission key format: " ++ kp.1) ∈ validate r) := by
  constructor
  · intro kp hkp hne
    apply validate_mem_of_entry hkp
    unfold validateEntryErrors
    refine List.mem_append_right _ ?_
    rw [if_pos hne]
    exact List.mem_singleton.mpr rfl
  · intro kp hkp hnc
    apply validate_mem_of_entry hkp
    unfold validateEntryErrors
    refine List.mem_append_left _ ?_
    rw [if_pos (show ¬ kp.1.toList.contains '.' = true by
      simp only [hnc]; exact Bool.false_ne_true)]
    exact List.mem_singleton.mpr rfl

/-- Witness for C8: a registry state holding one mismatching key and one
dot-free key; `validate` reports both. -/
theorem c8_validate_reports_witness :
    ("Permission key 'users.view' does not match module.capability 'users.edit'"
      ∈ validate { permissions :=
          [("users.view", { key := "users.view", module := "users", capability := "edit",
                            label := "L", description := "", type := "crud" }),
           ("nodot", { key := "nodot", module := "no", capability := "dot",
                       label := "L", description := "", type := "crud" })] }) ∧
    ("Invalid permission key format: nodot"
      ∈ validate { permissions :=
          [("users.view", { key := "users.view", module := "users", capability := "edit",
                            label := "L", description := "", type := "crud" }),
           ("nodot", { key := "nodot", module := "no", capability := "dot",
                       label := "L", description := "", type := "crud" })] }) := by
  constructor
  · exact (c8_validate_reports _).1
      ("users.view", { key := "users.view", module := "users", capability := "edit",
                       label := "L", description := "", type := "crud" })
      (by simp) (by decide)
  · exact (c8_validate_reports _).2
      ("nodot", { key := "nodot", module := "no", capability := "dot",
                  label := "L", description := "", type := "crud" })
      (by simp) (by decide)

/-- Counterexample for C8 as stated: registering module `"Users"` stores the
key `"Users.view"`, which violates the key-format regex
`^[a-z0-9_]+(\.[a-z0-9_]+)+$` (uppercase), yet `validate` reports no error —
it never checks the regex, only the presence of a dot. -/
theorem c8_counterexample_regex_not_enforced :
    (register_module {} "Users" ["view"] [] none none).1.permissions.map
        (fun kp => kp.1) = ["Users.view"] ∧
    keyFormatValid "Users.view" = false ∧
    validate (register_module {} "Users" ["view"] [] none none).1 = [] := by
  refine ⟨by decide, by decide, by decide⟩

/-- When the crud list contains an invalid capability (first at `c`),
`_generate_module_permissions` raises there, leaving the module map as the
caller set it. -/
theorem generate_module_permissions_invalid {cs1 : List String} {c : String}
    {cs2 : List String} (md : ModuleDefinition) (r' : Registry)
    (hcrud : md.crud = cs1 ++ c :: cs2)
    (hall : ∀ c' ∈ cs1, c' ∈ STANDARD_CRUD) (hc : c ∉ STANDARD_CRUD) :
    (generate_module_permissions md r').2 = some (.invalidCapability c) ∧
    (generate_module_permissions md r').1.modules = r'.modules := by
  unfold generate_module_permissions
  cases hg : genCrudPerms md.name md.crud r' with
  | mk r1 e =>
    have hinv := @genCrudPerms_invalid md.name cs1 r' c cs2 hall hc
    rw [← hcrud] at hinv
    rw [hg] at hinv
    simp only at hinv
    subst hinv
    dsimp only
    refine ⟨rfl, ?_⟩
    have hpres := (genCrudPerms_preserves md.name md.crud r').1
    rw [hg] at hpres
    exact hpres

/-- C7 (amended): `register_module` fails with `DuplicateModuleError`
(`ValueError`) on a duplicate name, leaving the registry unchanged, and with
`InvalidCapabilityError` (`ValidationError`) on the first crud entry outside
`STANDARD_CRUD`.  Contrary to the claim, in the invalid-capability case the
registry is already mutated when the error is raised: the module map
contains the new module (see the counterexample for the mutation). -/
theorem c7_register_module_failures (r : Registry) (name : String)
    (crud actions : List String) (lab descr : Option String) :
    ((r.modules.lookup name).isSome = true →
      register_module r name crud actions lab descr
        = (r, some (.duplicateModule name))) ∧
    (∀ cs1 c cs2, r.modules.lookup name = none →
      crud = cs1 ++ c :: cs2 → (∀ c' ∈ cs1, c' ∈ STANDARD_CRUD) →
      c ∉ STANDARD_CRUD →
      (register_module r name crud actions lab descr).2
          = some (.invalidCapability c) ∧
      ((register_module r name crud actions lab descr).1.modules.lookup name).isSome
          = true) := by
  constructor
  · intro hs
    unfold register_module
    rw [if_pos hs]
  · intro cs1 c cs2 hnone hcr hall hc
    subst hcr
    unfold register_module
    rw [if_neg (by simp [hnone])]
    dsimp only
    refine ⟨(generate_module_permissions_invalid _ _ rfl hall hc).1, ?_⟩
    rw [(generate_module_permissions_invalid _ _ rfl hall hc).2]
    dsimp only
    rw [lookup_dictInsert_self]
    rfl

/-- Witness for C7: duplicate registration of `"users"` is refused with the
registry returned unchanged, and crud list `["view", "bogus"]` fails at
`"bogus"` with the module already inserted. -/
theorem c7_register_module_failures_witness :
    register_module (register_module {} "users" [] [] none none).1
        "users" [] [] none none
      = ((register_module {} "users" [] [] none none).1,
         some (.duplicateModule "users")) ∧
    (register_module {} "users" ["view", "bogus"] [] none none).2
      = some (.invalidCapability "bogus") ∧
    (((register_module {} "users" ["view", "bogus"] [] none none).1.modules.lookup
        "users").isSome = true) := by
  refine ⟨?_, ?_⟩
  · exact (c7_register_module_failures _ "users" [] [] none none).1 (by decide)
  · exact (c7_register_module_failures {} "users" ["view", "bogus"] [] none none).2
      ["view"] "bogus" [] (by decide) rfl (by decide) (by decide)

/-- Counterexample for C7 as stated: after `register_module` fails with the
invalid-capability error, the module map and the permission map are both
mutated (the claim says they are exactly as before the call, i.e. empty
here). -/
theorem c7_counterexample_invalid_capability_mutates :
    (register_module {} "users" ["view", "bogus"] [] none none).2
        = some (.invalidCapability "bogus") ∧
    (register_module {} "users" ["view", "bogus"] [] none none).1.modules ≠ [] ∧
    (register_module {} "users" ["view", "bogus"] [] none none).1.permissions ≠ [] := by
  refine ⟨by decide, by decide, by decide⟩

/-- C6 (amended): a module registered successfully with duplicate-free and
disjoint crud and action sets, whose keys are fresh in the registry, yields
exactly `|crud| + |actions|` PermissionDefinitions for that module — i.e.
`|C ∪ A|`, one per distinct capability.  When crud and actions overlap, the
overlapping capability yields a single definition (see the counterexample),
so the claim's unconditional `|C| + |A|` fails. -/
theorem c6_module_generates_per_capability (r : Registry) (name : String)
    (crud actions : List String) (lab descr : Option String)
    (hcrud : crud.Nodup) (hacts : actions.Nodup)
    (hdisj : ∀ c ∈ crud, c ∉ actions)
    (hfresh : ∀ c ∈ crud ++ actions, r.permissions.lookup (name ++ "." ++ c) = none)
    (hmod : ∀ kp ∈ r.permissions, kp.2.module ≠ name)
    (hok : (register_module r name crud actions lab descr).2 = none) :
    (get_module_permissions (register_module r name crud actions lab descr).1
        name).length
      = crud.length + actions.length := by
  have hinj : Function.Injective (fun c => name ++ "." ++ c) := by
    intro a b hab
    exact key_of_capability_injective name hab
  by_cases hdup : (r.modules.lookup name).isSome
  · rw [show register_module r name crud actions lab descr
        = (r, some (.duplicateModule name)) by unfold register_module; rw [if_pos hdup]]
      at hok
    simp at hok
  · unfold register_module at hok ⊢
    rw [if_neg hdup] at hok ⊢
    dsimp only at hok ⊢
    unfold generate_module_permissions at hok ⊢
    simp only [mkModuleDefinition] at hok ⊢
    split at hok
    · rename_i r1 heq
      dsimp only
      have hvalid : ∀ c ∈ crud, c ∈ STANDARD_CRUD :=
        genCrudPerms_ok_valid (by rw [heq])
      rw [genCrudPerms_ok_perms hvalid] at heq
      simp only [Prod.mk.injEq] at heq
      obtain ⟨hr1, -⟩ := heq
      rw [← hr1]
      rw [genActionPerms_perms]
      dsimp only
      have hfold1 : crud.foldl
          (fun ps c => dictInsert ps (name ++ "." ++ c) (crudPd name c))
          r.permissions
          = r.permissions ++ crud.map (fun c => (name ++ "." ++ c, crudPd name c)) := by
        refine foldl_dictInsert_fresh (fun c => name ++ "." ++ c) (crudPd name)
          crud r.permissions (List.Nodup.map hinj hcrud) ?_
        intro c hc
        exact hfresh c (List.mem_append_left _ hc)
      rw [hfold1]
      have hfold2 : actions.foldl
          (fun ps a => dictInsert ps (name ++ "." ++ a) (actionPd name a))
          (r.permissions ++ crud.map (fun c => (name ++ "." ++ c, crudPd name c)))
          = (r.permissions ++ crud.map (fun c => (name ++ "." ++ c, crudPd name c)))
            ++ actions.map (fun a => (name ++ "." ++ a, actionPd name a)) := by
        refine foldl_dictInsert_fresh (fun a => name ++ "." ++ a) (actionPd name)
          actions _ (List.Nodup.map hinj hacts) ?_
        intro a ha
        rw [lookup_append_of_none _ (hfresh a (List.mem_append_right _ ha))]
        rw [lookup_eq_none_iff]
        intro hmem
        simp only [List.map_map, List.mem_map, Function.comp] at hmem
        obtain ⟨c, hcmem, hceq⟩ := hmem
        have : c = a := hinj hceq
        exact hdisj c hcmem (this ▸ ha)
      rw [hfold2]
      unfold get_module_permissions
      dsimp only
      rw [List.filter_append, List.filter_append]
      have hf0 : (r.permissions.filter (fun kp => decide (kp.2.module = name))) = [] := by
        rw [List.filter_eq_nil_iff]
        intro kp hkp
        simp only [decide_eq_true_eq]
        exact hmod kp hkp
      have hf1 : ((crud.map (fun c => (name ++ "." ++ c, crudPd name c))).filter
          (fun kp => decide (kp.2.module = name)))
          = crud.map (fun c => (name ++ "." ++ c, crudPd name c)) := by
        rw [List.filter_eq_self]
        intro kp hkp
        simp only [List.mem_map] at hkp
        obtain ⟨c, _, rfl⟩ := hkp
        simp [crudPd]
      have hf2 : ((actions.map (fun a => (name ++ "." ++ a, actionPd name a))).filter
          (fun kp => decide (kp.2.module = name)))
          = actions.map (fun a => (name ++ "." ++ a, actionPd name a)) := by
        rw [List.filter_eq_self]
        intro kp hkp
        simp only [List.mem_map] at hkp
        obtain ⟨a, _, rfl⟩ := hkp
        simp [actionPd]
      rw [hf0, hf1, hf2]
      simp
    · simp at hok

/-- Witness for C6: `"users"` with `crud=["view","create"]` and
`actions=["reset_password"]` yields 3 permission definitions. -/
theorem c6_module_generates_per_capability_witness :
    (get_module_permissions
        (register_module {} "users" ["view", "create"] ["reset_password"]
          none none).1 "users").length = 2 + 1 :=
  c6_module_generates_per_capability {} "users" ["view", "create"] ["reset_password"]
    none none (by decide) (by decide) (by decide)
    (by intro c _; rfl) (by intro kp hkp; simp at hkp) rfl

/-- Counterexample for C6 as stated: `crud=["view"]` and `actions=["view"]`
(sets C = A = {view}, so |C| + |A| = 2) generate a single
PermissionDefinition — the permission dict is keyed by `module.capability`,
so the overlapping capability collapses. -/
theorem c6_counterexample_overlap :
    (register_module {} "users" ["view"] ["view"] none none).2 = none ∧
    (get_module_permissions (register_module {} "users" ["view"] ["view"] none none).1
        "users").length = 1 := by
  refine ⟨by decide, by decide⟩

/-- A persisted row whose key is not among the registry's definitions shows
up in the sync plan's `orphaned` list. -/
theorem orphan_mem_plan {r : Registry} {db : List Permission} {p : Permission}
    (hdb : (db.map Permission.key).Nodup) (hp : p ∈ db)
    (hl : r.permissions.lookup p.key = none) :
    p ∈ (syncPlanOf r db).orphaned := by
  unfold syncPlanOf
  rw [mem_plan_orphaned]
  refine ⟨p.key, ?_, hl⟩
  rw [dbByKey_eq_map hdb]
  exact List.mem_map.mpr ⟨p, hp, rfl⟩

/-- C3 (amended): with orphan policy `error` and at least one orphaned
persisted key, `sync(dry_run=False)` raises and, the whole call being inside
`@transaction.atomic`, the persisted store is left exactly as before.  The
raised error is the orphan-policy `ValidationError` whenever the create
phase completes; a create that itself fails validation aborts the sync first
with that `ValidationError` instead (see the counterexample), which is the
only deviation from the claim. -/
theorem c3_orphan_error_aborts (r : Registry) (db : List Permission) (p : Permission)
    (hdb : (db.map Permission.key).Nodup)
    (hact : r.orphan_action = "error")
    (hp : p ∈ db)
    (hl : r.permissions.lookup p.key = none) :
    (syncAtomic r db).1 = db ∧
    ∃ e, (syncAtomic r db).2 = .error e ∧
      (∀ out, createAll db (syncPlanOf r db).create = .ok out →
        ∃ k, e = SyncError.orphanedError k) := by
  have hmem : p ∈ (syncPlanOf r db).orphaned := orphan_mem_plan hdb hp hl
  have hne : (syncPlanOf r db).orphaned ≠ [] := List.ne_nil_of_mem hmem
  have herr : ∃ e, syncRun r db = .error e ∧
      (∀ out, createAll db (syncPlanOf r db).create = .ok out →
        ∃ k, e = SyncError.orphanedError k) := by
    cases hc : createAll db (syncPlanOf r db).create with
    | error e =>
      refine ⟨e, ?_, ?_⟩
      · unfold syncRun execute_sync
        rw [hc]
      · intro out hout
        exact absurd hout (by simp)
    | ok out =>
      obtain ⟨db1, created⟩ := out
      cases hu : updateAll db1 (syncPlanOf r db).update with
      | mk db2 updated =>
        cases hos : (syncPlanOf r db).orphaned with
        | nil => exact absurd hos hne
        | cons q rest =>
          refine ⟨.orphanedError q.key, ?_, fun _ _ => ⟨q.key, rfl⟩⟩
          unfold syncRun execute_sync
          rw [hc]
          dsimp only
          rw [hu]
          dsimp only
          rw [hact, hos, orphanPhase_error_cons]
  obtain ⟨e, he, hsh⟩ := herr
  unfold syncAtomic
  rw [he]
  exact ⟨rfl, e, rfl, hsh⟩

/-- Witness for C3: orphan policy `error`, a registry holding `users.view`
and a store holding only the orphan `users.old` — sync errors and the store
is unchanged. -/
theorem c3_orphan_error_aborts_witness :
    (syncAtomic
        (register_module ({ orphan_action := "error" } : Registry)
          "users" ["view"] [] none none).1
        [{ pk := some 1, key := "users.old", module := "users", capability := "old",
           label := "Old", description := "", is_active := true,
           is_deprecated := false }]).1
      = [{ pk := some 1, key := "users.old", module := "users", capability := "old",
           label := "Old", description := "", is_active := true,
           is_deprecated := false }] ∧
    ∃ e, (syncAtomic
        (register_module ({ orphan_action := "error" } : Registry)
          "users" ["view"] [] none none).1
        [{ pk := some 1, key := "users.old", module := "users", capability := "old",
           label := "Old", description := "", is_active := true,
           is_deprecated := false }]).2 = .error e ∧
      (∀ out, createAll
          [{ pk := some 1, key := "users.old", module := "users", capability := "old",
             label := "Old", description := "", is_active := true,
             is_deprecated := false }]
          (syncPlanOf
            (register_module ({ orphan_action := "error" } : Registry)
              "users" ["view"] [] none none).1
            [{ pk := some 1, key := "users.old", module := "users", capability := "old",
               label := "Old", description := "", is_active := true,
               is_deprecated := false }]).create = .ok out →
        ∃ k, e = SyncError.orphanedError k) :=
  c3_orphan_error_aborts _ _
    { pk := some 1, key := "users.old", module := "users", capability := "old",
      label := "Old", description := "", is_active := true, is_deprecated := false }
    (by decide) (by decide) (by decide) (by decide)

/-- Counterexample for C3 as stated: orphan policy is `error` and an orphan
(`users.old`) is present, but the registry also declares the malformed key
`"Bad.key"`; the create phase runs before the orphan loop and its
`Permission.save` raises the key-format `ValidationError`, so the error the
sync raises is not the orphan-policy error.  (The store is still rolled
back.) -/
theorem c3_counterexample_create_error_first :
    (register_module ({ orphan_action := "error" } : Registry)
        "Bad" [] ["key"] none none).1.orphan_action = "error" ∧
    (register_module ({ orphan_action := "error" } : Registry)
        "Bad" [] ["key"] none none).1.permissions.lookup "users.old" = none ∧
    syncRun
        (register_module ({ orphan_action := "error" } : Registry)
          "Bad" [] ["key"] none none).1
        [{ pk := some 1, key := "users.old", module := "users", capability := "old",
           label := "Old", description := "", is_active := true,
           is_deprecated := false }]
      = .error (.saveError
          "Permission key must contain only lowercase letters, numbers, underscores, and dots") := by
  refine ⟨rfl, rfl, rfl⟩

/-- C4: a persisted permission whose key is absent from the registry's
definitions appears in the dry-run plan's `orphaned` list; a non-dry-run
sync deletes its row exactly under `orphan_action="delete"` (no row with
that key remains), while under `"warn"` the row survives untouched; in both
cases the key is reported in the result's `orphaned` list. -/
theorem c4_orphan_detection (r : Registry) (db : List Permission) (p : Permission)
    (hdb : (db.map Permission.key).Nodup)
    (hkey : ∀ kp ∈ r.permissions, (kp.2 : PermissionDefinition).key = kp.1)
    (hp : p ∈ db)
    (hl : r.permissions.lookup p.key = none) :
    p ∈ (syncPlanOf r db).orphaned ∧
    (∀ db' res, r.orphan_action = "delete" → syncRun r db = .ok (db', res) →
        p.key ∉ db'.map Permission.key ∧ p.key ∈ res.orphaned) ∧
    (∀ db' res, r.orphan_action = "warn" → syncRun r db = .ok (db', res) →
        p ∈ db' ∧ p.key ∈ res.orphaned) := by
  have hmem : p ∈ (syncPlanOf r db).orphaned := orphan_mem_plan hdb hp hl
  have hnotin : p.key ∉ r.permissions.map Prod.fst :=
    (lookup_eq_none_iff _ _).mp hl
  -- keys produced by the create plan are definition keys, hence not p.key
  have hcreate_keys : ∀ d ∈ (syncPlanOf r db).create, d.key ≠ p.key := by
    intro d hd
    obtain ⟨k, hkd, -⟩ := mem_plan_create.mp hd
    rw [hkey (k, d) hkd]
    intro hkp
    exact hnotin (hkp ▸ List.mem_map.mpr ⟨(k, d), hkd, rfl⟩)
  have hupdate_keys : ∀ d ∈ (syncPlanOf r db).update, d.key ≠ p.key := by
    intro d hd
    obtain ⟨k, existing, hkd, -, -⟩ := mem_plan_update.mp hd
    rw [hkey (k, d) hkd]
    intro hkp
    exact hnotin (hkp ▸ List.mem_map.mpr ⟨(k, d), hkd, rfl⟩)
  refine ⟨hmem, ?_, ?_⟩
  · -- delete
    intro db' res hact hrun
    unfold syncRun at hrun
    obtain ⟨db1, db2, orph, hc, hu, ho, hore⟩ := execute_sync_ok_elim hrun
    obtain ⟨news, hdb1, -, hfa⟩ := createAll_ok hc
    have hshape := updateAll_shape (syncPlanOf r db).update db1
    rw [hu] at hshape
    dsimp only at hshape
    obtain ⟨-, huf⟩ := hshape
    rw [hact] at ho
    rw [orphanPhase_delete] at ho
    simp only [Except.ok.injEq, Prod.mk.injEq] at ho
    obtain ⟨hdb', horph⟩ := ho
    constructor
    · intro hin
      obtain ⟨q, hq, hqk⟩ := List.mem_map.mp hin
      rw [← hdb'] at hq
      obtain ⟨hq2, hqpk⟩ := mem_foldl_deleteByPk.mp hq
      obtain ⟨q1, hq1, hrel⟩ := forall₂_mem_right huf hq2
      rw [hdb1] at hq1
      rcases List.mem_append.mp hq1 with hq1db | hq1new
      · -- q1 is an original row with key p.key, so q1 = p, but its pk was deleted
        have hq1k : q1.key = p.key := by rw [← hrel.1, hqk]
        have hq1p : q1 = p := List.inj_on_of_nodup_map hdb hq1db hp hq1k
        exact hqpk p hmem (by rw [hrel.2.1, hq1p])
      · -- q1 is a created row, whose key is a definition key ≠ p.key
        obtain ⟨d, hd, hdrel⟩ := forall₂_mem_right hfa hq1new
        exact hcreate_keys d hd (by rw [← hdrel.1, ← hrel.1, hqk])
    · rw [hore, ← horph]
      exact List.mem_map.mpr ⟨p, hmem, rfl⟩
  · -- warn
    intro db' res hact hrun
    unfold syncRun at hrun
    obtain ⟨db1, db2, orph, hc, hu, ho, hore⟩ := execute_sync_ok_elim hrun
    obtain ⟨news, hdb1, -, -⟩ := createAll_ok hc
    have hshape := updateAll_shape (syncPlanOf r db).update db1
    rw [hu] at hshape
    dsimp only at hshape
    obtain ⟨-, huf⟩ := hshape
    rw [hact, orphanPhase_warn] at ho
    simp only [Except.ok.injEq, Prod.mk.injEq] at ho
    obtain ⟨hdb', horph⟩ := ho
    constructor
    · have hpd1 : p ∈ db1 := by rw [hdb1]; exact List.mem_append_left _ hp
      obtain ⟨q2, hq2, hrel⟩ := forall₂_mem_left huf hpd1
      have : q2 = p := by
        refine hrel.2.2.2.2.2 ?_
        intro hkin
        obtain ⟨d, hd, hdk⟩ := List.mem_map.mp hkin
        exact hupdate_keys d hd hdk
      rw [← hdb', ← this]
      exact hq2
    · rw [hore, ← horph]
      exact List.mem_map.mpr ⟨p, hmem, rfl⟩

/-- Witness for C4: registry `users.view`, store holding only the orphan
`users.old`; under `delete` the orphan's row is gone from the resulting
store, under `warn` it survives untouched, and both report the key. -/
theorem c4_orphan_detection_witness :
    ({ pk := some 1, key := "users.old", module := "users", capability := "old",
       label := "Old", description := "", is_active := true,
       is_deprecated := false } : Permission)
      ∈ (syncPlanOf
          (register_module ({ orphan_action := "delete" } : Registry)
            "users" ["view"] [] none none).1
          [{ pk := some 1, key := "users.old", module := "users", capability := "old",
             label := "Old", description := "", is_active := true,
             is_deprecated := false }]).orphaned ∧
    ("users.old" ∉
        ([{ pk := some 2, key := "users.view", module := "users", capability := "view",
            label := "View Users", description := "", is_active := true,
            is_deprecated := false }] : List Permission).map Permission.key ∧
      "users.old" ∈ (SyncResult.mk ["users.view"] [] ["users.old"]).orphaned) ∧
    (({ pk := some 1, key := "users.old", module := "users", capability := "old",
        label := "Old", description := "", is_active := true,
        is_deprecated := false } : Permission)
        ∈ ([{ pk := some 1, key := "users.old", module := "users", capability := "old",
              label := "Old", description := "", is_active := true,
              is_deprecated := false },
            { pk := some 2, key := "users.view", module := "users", capability := "view",
              label := "View Users", description := "", is_active := true,
              is_deprecated := false }] : List Permission) ∧
      "users.old" ∈ (SyncResult.mk ["users.view"] [] ["users.old"]).orphaned) := by
  refine ⟨?_, ?_, ?_⟩
  · exact (c4_orphan_detection
      (register_module ({ orphan_action := "delete" } : Registry)
        "users" ["view"] [] none none).1
      [{ pk := some 1, key := "users.old", module := "users", capability := "old",
         label := "Old", description := "", is_active := true, is_deprecated := false }]
      { pk := some 1, key := "users.old", module := "users", capability := "old",
        label := "Old", description := "", is_active := true, is_deprecated := false }
      (by decide) (by decide) (by decide) (by decide)).1
  · exact (c4_orphan_detection
      (register_module ({ orphan_action := "delete" } : Registry)
        "users" ["view"] [] none none).1
      [{ pk := some 1, key := "users.old", module := "users", capability := "old",
         label := "Old", description := "", is_active := true, is_deprecated := false }]
      { pk := some 1, key := "users.old", module := "users", capability := "old",
        label := "Old", description := "", is_active := true, is_deprecated := false }
      (by decide) (by decide) (by decide) (by decide)).2.1
      [{ pk := some 2, key := "users.view", module := "users", capability := "view",
         label := "View Users", description := "", is_active := true,
         is_deprecated := false }]
      (SyncResult.mk ["users.view"] [] ["users.old"]) rfl rfl
  · exact (c4_orphan_detection
      (register_module ({ orphan_action := "warn" } : Registry)
        "users" ["view"] [] none none).1
      [{ pk := some 1, key := "users.old", module := "users", capability := "old",
         label := "Old", description := "", is_active := true, is_deprecated := false }]
      { pk := some 1, key := "users.old", module := "users", capability := "old",
        label := "Old", description := "", is_active := true, is_deprecated := false }
      (by decide) (by decide) (by decide) (by decide)).2.2
      [{ pk := some 1, key := "users.old", module := "users", capability := "old",
         label := "Old", description := "", is_active := true, is_deprecated := false },
       { pk := some 2, key := "users.view", module := "users", capability := "view",
         label := "View Users", description := "", is_active := true,
         is_deprecated := false }]
      (SyncResult.mk ["users.view"] [] ["users.old"]) rfl rfl

theorem applyUpd_key (us : List PermissionDefinition) (q : Permission) :
    (applyUpd us q).key = q.key := by
  unfold applyUpd
  cases us.find? (fun d => d.key == q.key) <;> rfl

theorem assoc_mem_unique {α : Type} {l : List (String × α)} {k : String} {a b : α}
    (hn : (l.map Prod.fst).Nodup) (ha : (k, a) ∈ l) (hb : (k, b) ∈ l) : a = b := by
  have h1 := lookup_eq_some_of_mem hn ha
  have h2 := lookup_eq_some_of_mem hn hb
  rw [h1] at h2
  exact (Option.some.injEq _ _ ▸ h2)

theorem forall₂_map_eq {α β : Type} {f : α → String} {g : β → String}
    {l1 : List α} {l2 : List β}
    (h : List.Forall₂ (fun a b => g b = f a) l1 l2) : l2.map g = l1.map f := by
  induction h with
  | nil => rfl
  | cons hr _ ih => simp [ih, hr]

theorem orphanPhase_ok_keep {a : String} {os : List Permission} :
    ∀ {db db' : List Permission} {ks : List String},
      orphanPhase a db os = .ok (db', ks) →
      ∀ q ∈ db, (∀ o ∈ os, q.pk ≠ o.pk) → q ∈ db' := by
  induction os with
  | nil =>
    intro db db' ks h q hq _
    simp only [orphanPhase, Except.ok.injEq, Prod.mk.injEq] at h
    rw [← h.1]
    exact hq
  | cons o rest ih =>
    intro db db' ks h q hq hpk
    unfold orphanPhase at h
    by_cases hd : a = "delete"
    · rw [if_pos hd] at h
      split at h
      · simp at h
      · rename_i db'' keys heq
        simp only [Except.ok.injEq, Prod.mk.injEq] at h
        obtain ⟨h1, -⟩ := h
        rw [← h1]
        refine ih heq q ?_ (fun o' ho' => hpk o' (List.mem_cons_of_mem _ ho'))
        unfold deleteByPk
        rw [List.mem_filter]
        exact ⟨hq, by simpa using hpk o (List.mem_cons_self _ _)⟩
    · rw [if_neg hd] at h
      by_cases he : a = "error"
      · rw [if_pos he] at h; simp at h
      · rw [if_neg he] at h
        by_cases hw : a = "warn"
        · rw [if_pos hw] at h
          split at h
          · simp at h
          · rename_i db'' keys heq
            simp only [Except.ok.injEq, Prod.mk.injEq] at h
            obtain ⟨h1, -⟩ := h
            rw [← h1]
            exact ih heq q hq (fun o' ho' => hpk o' (List.mem_cons_of_mem _ ho'))
        · rw [if_neg hw] at h
          exact ih h q hq (fun o' ho' => hpk o' (List.mem_cons_of_mem _ ho'))

theorem orphanPhase_ok_sublist {a : String} {os : List Permission} :
    ∀ {db db' : List Permission} {ks : List String},
      orphanPhase a db os = .ok (db', ks) → db'.Sublist db := by
  induction os with
  | nil =>
    intro db db' ks h
    simp only [orphanPhase, Except.ok.injEq, Prod.mk.injEq] at h
    rw [← h.1]
  | cons o rest ih =>
    intro db db' ks h
    unfold orphanPhase at h
    by_cases hd : a = "delete"
    · rw [if_pos hd] at h
      split at h
      · simp at h
      · rename_i db'' keys heq
        simp only [Except.ok.injEq, Prod.mk.injEq] at h
        obtain ⟨h1, -⟩ := h
        rw [← h1]
        exact (ih heq).trans (List.filter_sublist _)
    · rw [if_neg hd] at h
      by_cases he : a = "error"
      · rw [if_pos he] at h; simp at h
      · rw [if_neg he] at h
        by_cases hw : a = "warn"
        · rw [if_pos hw] at h
          split at h
          · simp at h
          · rename_i db'' keys heq
            simp only [Except.ok.injEq, Prod.mk.injEq] at h
            obtain ⟨h1, -⟩ := h
            rw [← h1]
            exact ih heq
        · rw [if_neg hw] at h
          exact ih h

theorem orphanPhase_ok_of_ne_error {a : String} (hne : a ≠ "error")
    (os : List Permission) :
    ∀ db : List Permission, ∃ db' ks, orphanPhase a db os = .ok (db', ks) := by
  induction os with
  | nil => intro db; exact ⟨db, [], rfl⟩
  | cons o rest ih =>
    intro db
    unfold orphanPhase
    by_cases hd : a = "delete"
    · rw [if_pos hd]
      obtain ⟨db', ks, heq⟩ := ih (deleteByPk db o)
      exact ⟨db', o.key :: ks, by rw [heq]⟩
    · rw [if_neg hd, if_neg hne]
      by_cases hw : a = "warn"
      · rw [if_pos hw]
        obtain ⟨db', ks, heq⟩ := ih db
        exact ⟨db', o.key :: ks, by rw [heq]⟩
      · rw [if_neg hw]
        exact ih db

theorem orphanPhase_error_ok_nil {db db' : List Permission} {ks : List String}
    {os : List Permission} (h : orphanPhase "error" db os = .ok (db', ks)) :
    os = [] := by
  cases os with
  | nil => rfl
  | cons o rest => rw [orphanPhase_error_cons] at h; simp at h

/-- C2 (amended): sync is idempotent — a second `sync(dry_run=False)` right
after a successful one, with unchanged definitions, reports empty `created`
and `updated` lists — provided no persisted row is flagged `is_deprecated`
(and no definition carries type `"deprecated"`, which `register_module`
never produces).  Without that proviso idempotence fails: `_metadata_changed`
flags an `is_deprecated` mismatch but the update write never touches
`is_deprecated`, so such a row is re-reported as updated on every run (see
the counterexample). -/
theorem c2_sync_idempotent (r : Registry) (db db1 : List Permission) (res1 : SyncResult)
    (hdbk : (db.map Permission.key).Nodup)
    (hdbpk : (db.map Permission.pk).Nodup)
    (hkn : (r.permissions.map Prod.fst).Nodup)
    (hkey : ∀ kp ∈ r.permissions, (kp.2 : PermissionDefinition).key = kp.1)
    (hnodep : ∀ q ∈ db, q.is_deprecated = false)
    (htype : ∀ kp ∈ r.permissions, (kp.2 : PermissionDefinition).type ≠ "deprecated")
    (h1 : syncRun r db = .ok (db1, res1)) :
    ∃ db2 res2, syncRun r db1 = .ok (db2, res2) ∧
      res2.created = [] ∧ res2.updated = [] := by
  unfold syncRun at h1
  obtain ⟨dbA, dbB, orph, hc, hu, ho, hore⟩ := execute_sync_ok_elim h1
  obtain ⟨news, hdbA, hcreated, hfa⟩ := createAll_ok hc
  have hdefskeys : r.permissions.map (fun kd => kd.2.key) = r.permissions.map Prod.fst :=
    List.map_congr_left hkey
  have husnd : (((syncPlanOf r db).update).map (fun d => d.key)).Nodup :=
    List.Nodup.sublist plan_update_sublist (hdefskeys ▸ hkn)
  have hcnd : (((syncPlanOf r db).create).map (fun d => d.key)).Nodup :=
    List.Nodup.sublist plan_create_sublist (hdefskeys ▸ hkn)
  have hueq := updateAll_eq husnd dbA
  rw [hu] at hueq
  have hdbB : dbB = dbA.map (applyUpd (syncPlanOf r db).update) := by
    have := congrArg Prod.fst hueq
    simpa using this
  have horph_src : ∀ o ∈ (syncPlanOf r db).orphaned,
      o ∈ db ∧ r.permissions.lookup o.key = none := by
    intro o hoo
    obtain ⟨k, hkop, hl⟩ := mem_plan_orphaned.mp hoo
    rw [dbByKey_eq_map hdbk] at hkop
    obtain ⟨p', hp', heq⟩ := List.mem_map.mp hkop
    obtain ⟨h1', h2'⟩ := Prod.mk.injEq _ _ _ _ ▸ heq
    subst h2'
    exact ⟨hp', h1' ▸ hl⟩
  have hcreate_mem : ∀ d ∈ (syncPlanOf r db).create,
      (d.key, d) ∈ r.permissions ∧ d.key ∉ db.map Permission.key := by
    intro d hd
    obtain ⟨k, hkd, hl⟩ := mem_plan_create.mp hd
    have hk : d.key = k := hkey _ hkd
    refine ⟨hk ▸ hkd, ?_⟩
    rw [hk]
    exact (lookup_dbByKey_eq_none hdbk).mp hl
  have claimA : ∀ k d, (k, d) ∈ r.permissions → ∃ q ∈ db1,
      q.key = k ∧
      q.label = d.label ∧ q.description = d.description ∧
      q.is_active = true ∧ q.is_deprecated = false := by
    intro k d hkd
    have hdk : d.key = k := hkey _ hkd
    cases hlk : (dbByKey db).lookup k with
    | none =>
      have hdc : d ∈ (syncPlanOf r db).create := mem_plan_create.mpr ⟨k, hkd, hlk⟩
      obtain ⟨q, hq, hrel⟩ := forall₂_mem_left hfa hdc
      obtain ⟨hqk, hql, hqd, hqa, hqdep, m, hqpk, hbound⟩ := hrel
      have hknotu : q.key ∉ ((syncPlanOf r db).update).map (fun d => d.key) := by
        intro hmem
        obtain ⟨d', hd', hd'k⟩ := List.mem_map.mp hmem
        obtain ⟨k', ex, hk'd', hlex, -⟩ := mem_plan_update.mp hd'
        have hd'key : d'.key = k' := hkey _ hk'd'
        have hk'k : k' = k := by rw [← hd'key, hd'k, hqk, hdk]
        rw [hk'k, hlk] at hlex
        exact Option.noConfusion hlex
      have hqA : q ∈ dbA := hdbA ▸ List.mem_append_right _ hq
      have hqB : q ∈ dbB := by
        rw [hdbB]
        exact List.mem_map.mpr ⟨q, hqA, applyUpd_of_not_mem hknotu⟩
      have hq1 : q ∈ db1 := by
        refine orphanPhase_ok_keep ho q hqB ?_
        intro o hoo
        obtain ⟨hodb, -⟩ := horph_src o hoo
        rw [hqpk]
        cases hop : o.pk with
        | none => simp
        | some j =>
          have := hbound o hodb j hop
          simp only [ne_eq, Option.some.injEq]
          omega
      exact ⟨q, hq1, by rw [hqk, hdk], hql, hqd, hqa, hqdep⟩
    | some existing =>
      obtain ⟨hexdb, hexk⟩ := lookup_dbByKey_eq_some hdbk hlk
      have hkmem : k ∈ r.permissions.map Prod.fst :=
        List.mem_map.mpr ⟨(k, d), hkd, rfl⟩
      have hsurv : ∀ q2 : Permission, q2 ∈ dbB → q2.pk = existing.pk → q2 ∈ db1 := by
        intro q2 hq2 hq2pk
        refine orphanPhase_ok_keep ho q2 hq2 ?_
        intro o hoo
        obtain ⟨hodb, holk⟩ := horph_src o hoo
        have hne : existing ≠ o := by
          intro he
          rw [← he, hexk] at holk
          exact ((lookup_eq_none_iff _ _).mp holk) hkmem
        intro hpkeq
        exact hne (List.inj_on_of_nodup_map hdbpk hexdb hodb (by rw [← hq2pk, hpkeq]))
      have hexA : existing ∈ dbA := hdbA ▸ List.mem_append_left _ hexdb
      by_cases hch : metadata_changed existing d = true
      · have hdu : d ∈ (syncPlanOf r db).update :=
          mem_plan_update.mpr ⟨k, existing, hkd, hlk, hch⟩
        have happ := applyUpd_of_mem husnd hdu (by rw [hdk, hexk])
        have hq2B : ({ existing with label := d.label, description := d.description, is_active := true } : Permission) ∈ dbB := by
          rw [hdbB]
          exact List.mem_map.mpr ⟨existing, hexA, happ⟩
        refine ⟨_, hsurv _ hq2B rfl, ?_, rfl, rfl, rfl, ?_⟩
        · exact hexk
        · simpa using hnodep existing hexdb
      · have hmc : metadata_changed existing d = false := by
          simpa using hch
        unfold metadata_changed at hmc
        simp only [decide_eq_false_iff_not, not_or, not_not, ne_eq,
          Bool.not_eq_false] at hmc
        obtain ⟨hql, hqd, hqa, hqdep⟩ := hmc
        have hknotu : existing.key ∉ ((syncPlanOf r db).update).map (fun d => d.key) := by
          intro hmem
          obtain ⟨d', hd', hd'k⟩ := List.mem_map.mp hmem
          obtain ⟨k', ex', hk'd', hlex', hch'⟩ := mem_plan_update.mp hd'
          have hd'key : d'.key = k' := hkey _ hk'd'
          have hk'k : k' = k := by rw [← hd'key, hd'k, hexk]
          rw [hk'k, hlk] at hlex'
          have hex' : ex' = existing := by
            have := Option.some.injEq existing ex' ▸ hlex'
            simpa using this.symm
          have hd'd : d' = d := by
            refine assoc_mem_unique hkn ?_ hkd
            rw [← hk'k]
            exact hk'd'
          rw [hex', hd'd] at hch'
          rw [hch'] at hch
          exact hch rfl
        have hexB : existing ∈ dbB := by
          rw [hdbB]
          exact List.mem_map.mpr ⟨existing, hexA, applyUpd_of_not_mem hknotu⟩
        refine ⟨existing, hsurv existing hexB rfl, hexk, hql, hqd, hqa, ?_⟩
        rw [hqdep]
        simp [htype (k, d) hkd]
  have hnewskeys : news.map Permission.key
      = ((syncPlanOf r db).create).map (fun d => d.key) := by
    exact forall₂_map_eq (hfa.imp (fun _ _ hrel => hrel.1))
  have hdbAnd : (dbA.map Permission.key).Nodup := by
    rw [hdbA]
    rw [List.map_append, hnewskeys, List.nodup_append]
    refine ⟨hdbk, hcnd, ?_⟩
    intro a ha hb
    obtain ⟨d, hd, rfl⟩ := List.mem_map.mp hb
    exact (hcreate_mem d hd).2 ha
  have hdbBkeys : dbB.map Permission.key = dbA.map Permission.key := by
    rw [hdbB, List.map_map]
    refine List.map_congr_left ?_
    intro q _
    exact applyUpd_key _ q
  have hdb1nd : (db1.map Permission.key).Nodup := by
    have hsub := orphanPhase_ok_sublist ho
    refine List.Nodup.sublist (List.Sublist.map _ hsub) ?_
    rw [hdbBkeys]
    exact hdbAnd
  have hplan2c : (syncPlanOf r db1).create = [] := by
    rw [List.eq_nil_iff_forall_not_mem]
    intro d hd
    obtain ⟨k, hkd, hl⟩ := mem_plan_create.mp hd
    obtain ⟨q, hq, hqk, -⟩ := claimA k d hkd
    exact ((lookup_dbByKey_eq_none hdb1nd).mp hl)
      (hqk ▸ List.mem_map.mpr ⟨q, hq, rfl⟩)
  have hplan2u : (syncPlanOf r db1).update = [] := by
    rw [List.eq_nil_iff_forall_not_mem]
    intro d hd
    obtain ⟨k, ex2, hkd, hl2, hch2⟩ := mem_plan_update.mp hd
    obtain ⟨hex2db1, hex2k⟩ := lookup_dbByKey_eq_some hdb1nd hl2
    obtain ⟨q, hq, hqk, hql, hqd, hqa, hqdep⟩ := claimA k d hkd
    have hqe : q = ex2 :=
      List.inj_on_of_nodup_map hdb1nd hq hex2db1 (by rw [hqk, hex2k])
    rw [← hqe] at hch2
    have hdec : decide (d.type = "deprecated") = false :=
      decide_eq_false (htype (k, d) hkd)
    unfold metadata_changed at hch2
    rw [hql, hqd, hqa, hqdep, hdec] at hch2
    simp at hch2
  by_cases herr : r.orphan_action = "error"
  · rw [herr] at ho
    have hnil := orphanPhase_error_ok_nil ho
    have hos2 : (syncPlanOf r db1).orphaned = [] := by
      rw [List.eq_nil_iff_forall_not_mem]
      intro o2 ho2
      obtain ⟨k2, hk2, hl2⟩ := mem_plan_orphaned.mp ho2
      rw [dbByKey_eq_map hdb1nd] at hk2
      obtain ⟨p2, hp2, heq2⟩ := List.mem_map.mp hk2
      obtain ⟨hk2', hp2'⟩ := Prod.mk.injEq _ _ _ _ ▸ heq2
      subst hp2'
      rw [← hk2'] at hl2
      have hp2B : p2 ∈ dbB := (orphanPhase_ok_sublist ho).subset hp2
      rw [hdbB] at hp2B
      obtain ⟨q1, hq1A, hq1e⟩ := List.mem_map.mp hp2B
      have hq1k : p2.key = q1.key := by rw [← hq1e, applyUpd_key]
      rw [hq1k] at hl2
      rw [hdbA] at hq1A
      rcases List.mem_append.mp hq1A with hq1db | hq1new
      · cases hlq1 : r.permissions.lookup q1.key with
        | none =>
          have : q1 ∈ (syncPlanOf r db).orphaned := orphan_mem_plan hdbk hq1db hlq1
          rw [hnil] at this
          simp at this
        | some v =>
          rw [hlq1] at hl2
          exact Option.noConfusion hl2
      · obtain ⟨d1, hd1, hd1rel⟩ := forall₂_mem_right hfa hq1new
        have hd1mem := (hcreate_mem d1 hd1).1
        have : q1.key ∈ r.permissions.map Prod.fst := by
          rw [hd1rel.1]
          exact List.mem_map.mpr ⟨(d1.key, d1), hd1mem, rfl⟩
        exact ((lookup_eq_none_iff _ _).mp hl2) this
    refine ⟨db1, ⟨[], [], []⟩, ?_, rfl, rfl⟩
    unfold syncRun
    have hc2 : createAll db1 (syncPlanOf r db1).create = .ok (db1, []) := by
      rw [hplan2c]; rfl
    have hu2 : updateAll db1 (syncPlanOf r db1).update = (db1, []) := by
      rw [hplan2u]; rfl
    have ho2 : orphanPhase r.orphan_action db1 (syncPlanOf r db1).orphaned
        = .ok (db1, []) := by
      rw [herr, hos2]; rfl
    exact execute_sync_ok_intro hc2 hu2 ho2
  · obtain ⟨db2, ks, ho2⟩ := orphanPhase_ok_of_ne_error herr (syncPlanOf r db1).orphaned db1
    refine ⟨db2, ⟨[], [], ks⟩, ?_, rfl, rfl⟩
    unfold syncRun
    have hc2 : createAll db1 (syncPlanOf r db1).create = .ok (db1, []) := by
      rw [hplan2c]; rfl
    have hu2 : updateAll db1 (syncPlanOf r db1).update = (db1, []) := by
      rw [hplan2u]; rfl
    exact execute_sync_ok_intro hc2 hu2 ho2

/-- Witness for C2: registry `users.view` over an empty store; the first
sync creates the row, the second reports nothing to create or update. -/
theorem c2_sync_idempotent_witness :
    ∃ db2 res2,
      syncRun
          (register_module ({ orphan_action := "warn" } : Registry)
            "users" ["view"] [] none none).1
          [{ pk := some 1, key := "users.view", module := "users", capability := "view",
             label := "View Users", description := "", is_active := true,
             is_deprecated := false }]
        = .ok (db2, res2) ∧ res2.created = [] ∧ res2.updated = [] :=
  c2_sync_idempotent
    (register_module ({ orphan_action := "warn" } : Registry)
      "users" ["view"] [] none none).1
    []
    [{ pk := some 1, key := "users.view", module := "users", capability := "view",
       label := "View Users", description := "", is_active := true,
       is_deprecated := false }]
    (SyncResult.mk ["users.view"] [] [])
    (by decide) (by decide) (by decide) (by decide) (by decide) (by decide) rfl

/-- Counterexample for C2 as stated: a persisted `users.view` row flagged
`is_deprecated` whose other fields already match the registry.  The first
sync succeeds and leaves the store byte-for-byte unchanged (the update write
never touches `is_deprecated`), so the immediately following sync is the
same call and again returns `updated = ["users.view"] ≠ []`. -/
theorem c2_counterexample_deprecated_row :
    syncRun
        (register_module ({ orphan_action := "warn" } : Registry)
          "users" ["view"] [] none none).1
        [{ pk := some 1, key := "users.view", module := "users", capability := "view",
           label := "View Users", description := "", is_active := true,
           is_deprecated := true }]
      = .ok
          ([{ pk := some 1, key := "users.view", module := "users", capability := "view",
              label := "View Users", description := "", is_active := true,
              is_deprecated := true }],
           SyncResult.mk [] ["users.view"] []) ∧
    (SyncResult.mk [] ["users.view"] []).updated ≠ [] := by
  refine ⟨rfl, by decide⟩

/-- Witness for C10 at a concrete store: the principal's old grant is
dropped, the inactive `users.create` is granted (no active-filter), the
missing key is ignored, and the call returns `True`. -/
theorem c10_add_permission_replaces_grants_witness :
    (add_permission 7
        [{ user := 7, perm := { pk := some 1, key := "users.view" } }]
        [{ pk := some 1, key := "users.view" },
         { pk := some 2, key := "users.create", is_active := false }]
        ["users.create", "users.missing"]).2 = true ∧
    ∀ k : String,
      (∃ g ∈ (add_permission 7
          [{ user := 7, perm := { pk := some 1, key := "users.view" } }]
          [{ pk := some 1, key := "users.view" },
           { pk := some 2, key := "users.create", is_active := false }]
          ["users.create", "users.missing"]).1,
          g.user = 7 ∧ g.perm.key = k) ↔
      (k ∈ ["users.create", "users.missing"] ∧
        ∃ p ∈ [({ pk := some 1, key := "users.view" } : Permission),
               { pk := some 2, key := "users.create", is_active := false }],
          p.key = k) :=
  c10_add_permission_replaces_grants 7
    [{ user := 7, perm := { pk := some 1, key := "users.view" } }]
    [{ pk := some 1, key := "users.view" },
     { pk := some 2, key := "users.create", is_active := false }]
    ["users.create", "users.missing"]

end DPE

